import Mathlib

/-!
Verification development for `recurring_events.py`, a recurrence-rule engine
computing future occurrence dates (daily, workdaily, weekly, monthly variants).

Dates are modelled as proleptic-Gregorian calendar dates `PyDate` (year, month,
day), mirroring Python `datetime.date`.  `toordinal` and `weekday` follow
CPython's definitions (`date.toordinal`, `date.weekday`); date comparison is
ordinal comparison.  `timedelta` addition/subtraction is modelled structurally
by iterating the calendar successor/predecessor.  Fallible Python operations
(`date.replace` raising `ValueError`, functions raising errors) return
`Option`; the distinct outcomes of the evaluator (a date, Python `None` from
falling through the dispatch, a raised exception) are distinguished by
`NextResult`.  The unbounded `while True` enumeration loop is modelled with
explicit fuel.
-/

structure PyDate where
  year : ℕ
  month : ℕ
  day : ℕ
deriving DecidableEq, Repr

/-- `calendar.isleap` -/
def isLeapYear (y : ℕ) : Bool :=
  y % 4 == 0 && (y % 100 != 0 || y % 400 == 0)

/-- `calendar.monthrange(y, m)[1]`: number of days of month `m` in year `y`. -/
def daysInMonth (y m : ℕ) : ℕ :=
  match m with
  | 1 => 31
  | 2 => if isLeapYear y then 29 else 28
  | 3 => 31
  | 4 => 30
  | 5 => 31
  | 6 => 30
  | 7 => 31
  | 8 => 31
  | 9 => 30
  | 10 => 31
  | 11 => 30
  | 12 => 31
  | _ => 0

/-- Days in the months of year `y` strictly before month `m`. -/
def daysBeforeMonth (y : ℕ) : ℕ → ℕ
  | 0 => 0
  | m + 1 => daysBeforeMonth y m + daysInMonth y m

/-- CPython `_days_before_year`: days before January 1st of year `y`. -/
def daysBeforeYear (y : ℕ) : ℕ :=
  365 * (y - 1) + (y - 1) / 4 - (y - 1) / 100 + (y - 1) / 400

def daysInYear (y : ℕ) : ℕ := if isLeapYear y then 366 else 365

/-- CPython `date.toordinal`: day 1 is 0001-01-01. -/
def toordinal (d : PyDate) : ℕ :=
  daysBeforeYear d.year + daysBeforeMonth d.year d.month + d.day

/-- CPython `date.weekday`: Monday = 0 … Sunday = 6. -/
def PyDate.weekday (d : PyDate) : ℕ := (toordinal d + 6) % 7

/-- A calendar date Python's `datetime.date` accepts (year upper bound elided). -/
def isValidDate (d : PyDate) : Prop :=
  1 ≤ d.year ∧ 1 ≤ d.month ∧ d.month ≤ 12 ∧ 1 ≤ d.day ∧ d.day ≤ daysInMonth d.year d.month

instance (d : PyDate) : Decidable (isValidDate d) := by unfold isValidDate; infer_instance

/-- Calendar successor (one day later). -/
def nextDay (d : PyDate) : PyDate :=
  if d.day < daysInMonth d.year d.month then ⟨d.year, d.month, d.day + 1⟩
  else if d.month < 12 then ⟨d.year, d.month + 1, 1⟩
  else ⟨d.year + 1, 1, 1⟩

/-- Calendar predecessor (one day earlier). -/
def prevDay (d : PyDate) : PyDate :=
  if 1 < d.day then ⟨d.year, d.month, d.day - 1⟩
  else if 1 < d.month then ⟨d.year, d.month - 1, daysInMonth d.year (d.month - 1)⟩
  else ⟨d.year - 1, 12, 31⟩

/-- `d + timedelta(days = n)` for `n ≥ 0`. -/
def addDays (d : PyDate) (n : ℕ) : PyDate := nextDay^[n] d

/-- `d - timedelta(days = n)` for `n ≥ 0`. -/
def subDays (d : PyDate) (n : ℕ) : PyDate := prevDay^[n] d

/-- `d + timedelta(days = k)` for a possibly negative `k`. -/
def addDaysInt (d : PyDate) (k : ℤ) : PyDate :=
  if 0 ≤ k then addDays d k.toNat else subDays d (-k).toNat

/-- `date.replace` / the `date` constructor: fails (`ValueError`) on invalid
fields.  The day is an `Int` since rule fields are Python ints. -/
def mkDate (y m : ℕ) (dv : ℤ) : Option PyDate :=
  if 1 ≤ y ∧ 1 ≤ m ∧ m ≤ 12 ∧ 1 ≤ dv ∧ dv ≤ (daysInMonth y m : ℤ) then
    some ⟨y, m, dv.toNat⟩
  else none

/-- The month/year rollover formula shared by the monthly branches:
`month = m + interval; year_incr = int(month / 13)`;
result is `(month - year_incr * 12, year_incr)`. -/
def monthAdv (m interval : ℕ) : ℕ × ℕ :=
  (m + interval - 12 * ((m + interval) / 13), (m + interval) / 13)

/-!  Free date functions of the source.  -/

/-- `get_next_workday_by_interval`: add `interval` days; if the landing
weekday is Saturday (5) or Sunday (6), add 2 more days. -/
def get_next_workday_by_interval (cur_date : PyDate) (interval : ℕ) : PyDate :=
  let c := addDays cur_date interval
  if 4 < c.weekday then addDays c 2 else c

/-- `get_next_weekday`: `cur_date + (weekday - 1 - cur_date.weekday())` days
(the delta may be negative). -/
def get_next_weekday (cur_date : PyDate) (weekday : ℤ) : PyDate :=
  addDaysInt cur_date (weekday - 1 - (cur_date.weekday : ℤ))

/-- `cur_date.replace(day=1, month=month+1)` with December→January rollover,
as written in the `ordinal == 5` branch of `get_nth_weekday_of_month`. -/
def nextMonthDate (cur_date : PyDate) : PyDate :=
  if cur_date.month < 12 then ⟨cur_date.year, cur_date.month + 1, 1⟩
  else ⟨cur_date.year + 1, 1, 1⟩

/-- The `else` branch of `get_nth_weekday_of_month`: set the day to 1, step to
the first matching weekday (`adj = (weekday - 1 - reference.weekday()) % 7`),
then add `ordinal - 1` weeks. -/
def nthWeekdayAux (cur_date : PyDate) (ordinal weekday : ℤ) : PyDate :=
  let reference : PyDate := ⟨cur_date.year, cur_date.month, 1⟩
  let adj : ℕ := ((weekday - 1 - (reference.weekday : ℤ)) % 7).toNat
  addDaysInt (addDays reference adj) (7 * (ordinal - 1))

/-- `get_nth_weekday_of_month`: `none` models the raised `ValueError`s. -/
def get_nth_weekday_of_month (cur_date : PyDate) (ordinal weekday : ℤ) : Option PyDate :=
  if 7 < weekday then none
  else if 5 < ordinal then none
  else if ordinal = 5 then
    some (subDays (nthWeekdayAux (nextMonthDate cur_date) 1 weekday) 7)
  else
    some (nthWeekdayAux cur_date ordinal weekday)

/-- `get_last_workday_of_month`. -/
def get_last_workday_of_month (cur_date : PyDate) : PyDate :=
  let c : PyDate := ⟨cur_date.year, cur_date.month, daysInMonth cur_date.year cur_date.month⟩
  if c.weekday = 5 ∨ c.weekday = 6 then subDays c (c.weekday - 4) else c

/-- `get_first_workday_of_month`. -/
def get_first_workday_of_month (cur_date : PyDate) : PyDate :=
  let c : PyDate := ⟨cur_date.year, cur_date.month, 1⟩
  if c.weekday = 5 ∨ c.weekday = 6 then addDays c (7 - c.weekday) else c

/-- `get_nth_workday_of_month`. -/
def get_nth_workday_of_month (cur_date : PyDate) (ordinal : ℤ) : PyDate :=
  let first_workday := get_first_workday_of_month cur_date
  let nth_workday := addDaysInt first_workday (ordinal - 1)
  if 4 < (first_workday.weekday : ℤ) + ordinal - 1 then addDays nth_workday 2 else nth_workday

/-!  The `RecurringEvent` class.  -/

/-- The state of a `RecurringEvent` instance.  The optional integer fields
keep Python int semantics (they are never range-coerced on storage). -/
structure RecurringEvent where
  last_occurence : PyDate
  recurs : ℕ
  interval : ℕ
  day : Option ℤ
  ordinal : Option ℤ
  weekday : Option ℤ
  interval_end : Option PyDate
deriving DecidableEq, Repr

/-- Python truthiness of an optional int (`None` and `0` are falsy). -/
def truthy (x : Option ℤ) : Bool :=
  match x with
  | none => false
  | some v => v != 0

/-- Unwrap an optional int known to be set. -/
def getVal (x : Option ℤ) : ℤ := x.getD 0

/-- `x if x else None` (the coercion applied by `__init__`). -/
def noneIfZero (x : Option ℤ) : Option ℤ :=
  match x with
  | none => none
  | some v => if v = 0 then none else some v

inductive InitResult where
  | ok : RecurringEvent → InitResult
  | error : InitResult
deriving DecidableEq, Repr

/-!  One predicate per check of `_check_consistency`, over the coerced
optional fields.  -/

/-- `self._day < 1 or self._day > 31` (checked only when `self._day` is truthy). -/
def dayRangeBad (d : Option ℤ) : Prop :=
  truthy d = true ∧ (getVal d < 1 ∨ 31 < getVal d)

/-- `self._ordinal < 1 or self._ordinal > 5` (when truthy). -/
def ordinalRangeBad (o : Option ℤ) : Prop :=
  truthy o = true ∧ (getVal o < 1 ∨ 5 < getVal o)

/-- `self._day and self._ordinal`. -/
def dayOrdinalBoth (d o : Option ℤ) : Prop := truthy d = true ∧ truthy o = true

/-- `self._day and self._weekday`. -/
def dayWeekdayBoth (d w : Option ℤ) : Prop := truthy d = true ∧ truthy w = true

/-- `self._weekday == 8 and self._recurs != 4`. -/
def workdayNotMonthly (w : Option ℤ) (recurs : ℕ) : Prop := w = some 8 ∧ recurs ≠ 4

/-- `self._weekday == 8 and not self._ordinal`. -/
def workdayNoOrdinal (w o : Option ℤ) : Prop := w = some 8 ∧ ¬ truthy o = true

/-- `self._recurs != 4 and self._day`. -/
def dayNotMonthly (d : Option ℤ) (recurs : ℕ) : Prop := recurs ≠ 4 ∧ truthy d = true

/-- `self._recurs not in (2, 4) and self._ordinal`. -/
def ordinalBadRecurs (o : Option ℤ) (recurs : ℕ) : Prop :=
  ¬(recurs = 2 ∨ recurs = 4) ∧ truthy o = true

/-- `self._recurs not in (3, 4) and self._weekday`. -/
def weekdayBadRecurs (w : Option ℤ) (recurs : ℕ) : Prop :=
  ¬(recurs = 3 ∨ recurs = 4) ∧ truthy w = true

instance (d : Option ℤ) : Decidable (dayRangeBad d) := by unfold dayRangeBad; infer_instance

instance (o : Option ℤ) : Decidable (ordinalRangeBad o) := by
  unfold ordinalRangeBad; infer_instance

instance (d o : Option ℤ) : Decidable (dayOrdinalBoth d o) := by
  unfold dayOrdinalBoth; infer_instance

instance (d w : Option ℤ) : Decidable (dayWeekdayBoth d w) := by
  unfold dayWeekdayBoth; infer_instance

instance (w : Option ℤ) (recurs : ℕ) : Decidable (workdayNotMonthly w recurs) := by
  unfold workdayNotMonthly; infer_instance

instance (w o : Option ℤ) : Decidable (workdayNoOrdinal w o) := by
  unfold workdayNoOrdinal; infer_instance

instance (d : Option ℤ) (recurs : ℕ) : Decidable (dayNotMonthly d recurs) := by
  unfold dayNotMonthly; infer_instance

instance (o : Option ℤ) (recurs : ℕ) : Decidable (ordinalBadRecurs o recurs) := by
  unfold ordinalBadRecurs; infer_instance

instance (w : Option ℤ) (recurs : ℕ) : Decidable (weekdayBadRecurs w recurs) := by
  unfold weekdayBadRecurs; infer_instance

/-- `RecurringEvent.__init__` followed by `_check_consistency`: builds the
instance or raises (`ValueError` / `AssertionError`, both `.error`). -/
def RecurringEvent.init (last_occurence : Option PyDate) (recurs interval : ℕ)
    (day ordinal weekday : Option ℤ) (first_occurence : Option PyDate) : InitResult :=
  let lo := match last_occurence with
            | some d => some d
            | none => first_occurence
  let d := noneIfZero day
  let o := noneIfZero ordinal
  let w := noneIfZero weekday
  match lo with
  | none => .error
  | some lo =>
    if dayRangeBad d then .error
    else if ordinalRangeBad o then .error
    else if dayOrdinalBoth d o then .error
    else if dayWeekdayBoth d w then .error
    else if workdayNotMonthly w recurs then .error
    else if workdayNoOrdinal w o then .error
    else if dayNotMonthly d recurs then .error
    else if ordinalBadRecurs o recurs then .error
    else if weekdayBadRecurs w recurs then .error
    else .ok ⟨lo, recurs, interval, d, o, w, none⟩

/-- `set_interval_end`.  The no-argument branch executes `datetime.now()`,
but the module only imports `timedelta` and `date` from `datetime`, so that
branch raises `NameError` (modelled by `none`). -/
def RecurringEvent.set_interval_end (r : RecurringEvent) (interval_end : Option PyDate) :
    Option RecurringEvent :=
  match interval_end with
  | none => none
  | some d => some { r with interval_end := some d }

/-- Outcome of `get_next_date`: a date, Python `None` (the dispatch fell
through every branch), or a raised exception. -/
inductive NextResult where
  | date : PyDate → NextResult
  | noneRet : NextResult
  | error : NextResult
deriving DecidableEq, Repr

def ofOpt : Option PyDate → NextResult
  | some d => .date d
  | none => .error

/-- `_get_daily_period`. -/
def RecurringEvent.get_daily_period (r : RecurringEvent) (starting_date : PyDate) : PyDate :=
  addDays starting_date r.interval

/-- `_get_workdaily_period` (`NotImplementedError` when `ordinal` is set). -/
def RecurringEvent.get_workdaily_period (r : RecurringEvent) (starting_date : PyDate) :
    Option PyDate :=
  if truthy r.ordinal then none
  else some (get_next_workday_by_interval starting_date r.interval)

/-- `_get_ordinal_workday_period`: advance `interval` months, then last or
nth workday of that month (`None` ordinal raises a `TypeError` inside
`get_nth_workday_of_month`). -/
def RecurringEvent.get_ordinal_workday_period (r : RecurringEvent) (starting_date : PyDate) :
    Option PyDate :=
  match mkDate (starting_date.year + (monthAdv starting_date.month r.interval).2)
      (monthAdv starting_date.month r.interval).1 1 with
  | none => none
  | some s =>
    if r.ordinal = some 5 then some (get_last_workday_of_month s)
    else
      match r.ordinal with
      | some o => some (get_nth_workday_of_month s o)
      | none => none

/-- `_get_weekday_period`: with `ordinal` set, advance `interval` months and
take the nth weekday there; otherwise advance `interval` weeks and snap to
the requested weekday. -/
def RecurringEvent.get_weekday_period (r : RecurringEvent) (starting_date : PyDate) :
    Option PyDate :=
  if truthy r.ordinal then
    match mkDate (starting_date.year + (monthAdv starting_date.month r.interval).2)
        (monthAdv starting_date.month r.interval).1 1 with
    | none => none
    | some s => get_nth_weekday_of_month s (getVal r.ordinal) (getVal r.weekday)
  else
    some (get_next_weekday (addDays starting_date (7 * r.interval)) (getVal r.weekday))

/-- `_get_day_period`: advance `interval` months and take day `r.day` there;
on `ValueError` fail over to day 1 of the following month minus one day. -/
def RecurringEvent.get_day_period (r : RecurringEvent) (starting_date : PyDate) :
    Option PyDate :=
  match r.day with
  | none => none
  | some dv =>
    match mkDate (starting_date.year + (monthAdv starting_date.month r.interval).2)
        (monthAdv starting_date.month r.interval).1 dv with
    | some event => some event
    | none =>
      match mkDate (starting_date.year + (monthAdv starting_date.month r.interval).2)
          ((monthAdv starting_date.month r.interval).1 + 1) 1 with
      | some s => some (prevDay s)
      | none => none

/-- `get_next_date`: dispatch on which optional fields are populated; falls
through to Python `None` when no branch matches. -/
def RecurringEvent.get_next_date (r : RecurringEvent) (starting_date : PyDate) : NextResult :=
  if truthy r.weekday then
    if getVal r.weekday < 8 then ofOpt (r.get_weekday_period starting_date)
    else ofOpt (r.get_ordinal_workday_period starting_date)
  else if truthy r.day then ofOpt (r.get_day_period starting_date)
  else if r.recurs = 1 then NextResult.date (r.get_daily_period starting_date)
  else if r.recurs = 2 then ofOpt (r.get_workdaily_period starting_date)
  else NextResult.noneRet

/-- Outcome of the enumeration loop of `get_events`. -/
inductive EnumResult where
  | ok : List PyDate → RecurringEvent → EnumResult
  | error : EnumResult
  | outOfFuel : EnumResult
deriving DecidableEq, Repr

/-- The `while True` loop body of `get_events`: compute the next date, stop
and discard it once it exceeds the horizon, otherwise collect it and advance
the cursor.  Comparing Python `None` with a date raises `TypeError`
(`.error`); raised exceptions propagate. -/
def getEventsLoop (hor : PyDate) : ℕ → RecurringEvent → List PyDate → EnumResult
  | 0, _, _ => .outOfFuel
  | fuel + 1, r, acc =>
    match r.get_next_date r.last_occurence with
    | NextResult.date e =>
      if toordinal hor < toordinal e then .ok acc r
      else getEventsLoop hor fuel { r with last_occurence := e } (acc ++ [e])
    | NextResult.noneRet => .error
    | NextResult.error => .error

/-- `get_events`: set the horizon via `set_interval_end`, then run the loop
starting from the cursor. -/
def RecurringEvent.get_events (r : RecurringEvent) (interval_end : Option PyDate)
    (fuel : ℕ) : EnumResult :=
  match r.set_interval_end interval_end with
  | none => .error
  | some r2 =>
    match r2.interval_end with
    | some hor => getEventsLoop hor fuel r2 []
    | none => .error

/-- First-of-month ordinal indexed by `year * 12 + (month - 1)` (proof device). -/
def ymF (n : ℕ) : ℕ :=
  daysBeforeYear (n / 12) + daysBeforeMonth (n / 12) (n % 12 + 1) + 1

/-!  Calendar infrastructure lemmas.  -/

lemma isValidDate_def (d : PyDate) :
    isValidDate d ↔
      1 ≤ d.year ∧ 1 ≤ d.month ∧ d.month ≤ 12 ∧ 1 ≤ d.day ∧
        d.day ≤ daysInMonth d.year d.month :=
  Iff.rfl

lemma toordinal_def (d : PyDate) :
    toordinal d = daysBeforeYear d.year + daysBeforeMonth d.year d.month + d.day := rfl

lemma daysInMonth_bounds (y m : ℕ) (h1 : 1 ≤ m) (h2 : m ≤ 12) :
    28 ≤ daysInMonth y m ∧ daysInMonth y m ≤ 31 := by
  interval_cases m <;> simp only [daysInMonth] <;> first
  | (split_ifs <;> omega)
  | omega

lemma daysBeforeMonth_succ (y m : ℕ) :
    daysBeforeMonth y (m + 1) = daysBeforeMonth y m + daysInMonth y m := rfl

lemma daysBeforeMonth_one (y : ℕ) : daysBeforeMonth y 1 = 0 := rfl

lemma daysBeforeMonth_thirteen (y : ℕ) : daysBeforeMonth y 13 = daysInYear y := by
  by_cases h : isLeapYear y <;>
    simp [daysBeforeMonth, daysInMonth, daysInYear, h]

set_option maxHeartbeats 1000000 in
lemma daysBeforeYear_succ (y : ℕ) (hy : 1 ≤ y) :
    daysBeforeYear (y + 1) = daysBeforeYear y + daysInYear y := by
  unfold daysBeforeYear daysInYear
  have e1 : y + 1 - 1 = y := by omega
  rw [e1]
  by_cases h : isLeapYear y
  · rw [if_pos h]
    simp only [isLeapYear, Bool.and_eq_true, beq_iff_eq, Bool.or_eq_true, bne_iff_ne,
      ne_eq] at h
    omega
  · rw [if_neg h]
    simp only [isLeapYear, Bool.and_eq_true, beq_iff_eq, Bool.or_eq_true, bne_iff_ne,
      ne_eq] at h
    omega

lemma toordinal_pos (d : PyDate) (hv : isValidDate d) : 1 ≤ toordinal d := by
  rw [isValidDate_def] at hv
  rw [toordinal_def]
  omega

lemma nextDay_spec (d : PyDate) (hv : isValidDate d) :
    isValidDate (nextDay d) ∧ toordinal (nextDay d) = toordinal d + 1 := by
  obtain ⟨y, m, dd⟩ := d
  rw [isValidDate_def] at hv
  dsimp only at hv
  obtain ⟨h1, h2, h3, h4, h5⟩ := hv
  unfold nextDay
  dsimp only
  split_ifs with ha hb
  · simp only [isValidDate_def, toordinal_def]
    try dsimp only
    omega
  · have hmb := daysInMonth_bounds y (m + 1) (by omega) (by omega)
    have e3 : daysBeforeMonth y (m + 1) = daysBeforeMonth y m + daysInMonth y m :=
      daysBeforeMonth_succ y m
    simp only [isValidDate_def, toordinal_def]
    try dsimp only
    omega
  · have hm : m = 12 := by omega
    subst hm
    have h31 : daysInMonth y 12 = 31 := rfl
    have h31' : daysInMonth (y + 1) 1 = 31 := rfl
    have e13 : daysBeforeMonth y 13 = daysInYear y := daysBeforeMonth_thirteen y
    have e12 : daysBeforeMonth y 13 = daysBeforeMonth y 12 + daysInMonth y 12 :=
      daysBeforeMonth_succ y 12
    have e1 : daysBeforeMonth (y + 1) 1 = 0 := daysBeforeMonth_one (y + 1)
    have es : daysBeforeYear (y + 1) = daysBeforeYear y + daysInYear y :=
      daysBeforeYear_succ y h1
    simp only [isValidDate_def, toordinal_def]
    try dsimp only
    omega

lemma addDays_spec (d : PyDate) (n : ℕ) (hv : isValidDate d) :
    isValidDate (addDays d n) ∧ toordinal (addDays d n) = toordinal d + n := by
  induction n with
  | zero => exact ⟨hv, rfl⟩
  | succ n ih =>
    have e : addDays d (n + 1) = nextDay (addDays d n) := Function.iterate_succ_apply' _ _ _
    rw [e]
    obtain ⟨ih1, ih2⟩ := ih
    obtain ⟨s1, s2⟩ := nextDay_spec _ ih1
    exact ⟨s1, by omega⟩

lemma prevDay_spec (d : PyDate) (hv : isValidDate d) (h2 : 2 ≤ toordinal d) :
    isValidDate (prevDay d) ∧ toordinal (prevDay d) + 1 = toordinal d := by
  obtain ⟨y, m, dd⟩ := d
  rw [isValidDate_def] at hv
  dsimp only at hv
  obtain ⟨g1, g2, g3, g4, g5⟩ := hv
  rw [toordinal_def] at h2
  dsimp only at h2
  unfold prevDay
  dsimp only
  split_ifs with ha hb
  · simp only [isValidDate_def, toordinal_def]
    try dsimp only
    omega
  · obtain ⟨k, rfl⟩ : ∃ k, m = k + 2 := ⟨m - 2, by omega⟩
    have hdd : dd = 1 := by omega
    subst hdd
    have em : k + 2 - 1 = k + 1 := rfl
    have hmb := daysInMonth_bounds y (k + 1) (by omega) (by omega)
    have e3 : daysBeforeMonth y (k + 2) = daysBeforeMonth y (k + 1) + daysInMonth y (k + 1) :=
      daysBeforeMonth_succ y (k + 1)
    simp only [isValidDate_def, toordinal_def, em]
    try dsimp only
    omega
  · have hm : m = 1 := by omega
    have hdd : dd = 1 := by omega
    subst hm; subst hdd
    have hy2 : 2 ≤ y := by
      by_contra hc
      have hy1 : y = 1 := by omega
      subst hy1
      have hone : daysBeforeYear 1 = 0 := rfl
      have hbm : daysBeforeMonth 1 1 = 0 := rfl
      omega
    obtain ⟨z, rfl⟩ : ∃ z, y = z + 2 := ⟨y - 2, by omega⟩
    have ey : z + 2 - 1 = z + 1 := rfl
    have h31 : daysInMonth (z + 1) 12 = 31 := rfl
    have e13 : daysBeforeMonth (z + 1) 13 = daysInYear (z + 1) := daysBeforeMonth_thirteen _
    have e12 : daysBeforeMonth (z + 1) 13 =
        daysBeforeMonth (z + 1) 12 + daysInMonth (z + 1) 12 := daysBeforeMonth_succ _ 12
    have es : daysBeforeYear (z + 2) = daysBeforeYear (z + 1) + daysInYear (z + 1) :=
      daysBeforeYear_succ (z + 1) (by omega)
    have e1 : daysBeforeMonth z 1 = 0 := daysBeforeMonth_one z
    have e1' : daysBeforeMonth (z + 2) 1 = 0 := daysBeforeMonth_one (z + 2)
    simp only [isValidDate_def, toordinal_def, ey]
    try dsimp only
    omega

lemma subDays_spec (d : PyDate) (n : ℕ) (hv : isValidDate d) (hn : n < toordinal d) :
    isValidDate (subDays d n) ∧ toordinal (subDays d n) + n = toordinal d := by
  induction n with
  | zero => exact ⟨hv, rfl⟩
  | succ n ih =>
    obtain ⟨ih1, ih2⟩ := ih (by omega)
    have e : subDays d (n + 1) = prevDay (subDays d n) := Function.iterate_succ_apply' _ _ _
    rw [e]
    obtain ⟨s1, s2⟩ := prevDay_spec _ ih1 (by omega)
    exact ⟨s1, by omega⟩

lemma addDays_within (y m dd n : ℕ) (h1 : 1 ≤ dd) (h2 : dd + n ≤ daysInMonth y m) :
    addDays ⟨y, m, dd⟩ n = ⟨y, m, dd + n⟩ := by
  induction n with
  | zero => rfl
  | succ n ih =>
    have e : addDays (⟨y, m, dd⟩ : PyDate) (n + 1) = nextDay (addDays ⟨y, m, dd⟩ n) :=
      Function.iterate_succ_apply' _ _ _
    rw [e, ih (by omega)]
    unfold nextDay
    dsimp only
    rw [if_pos (by omega)]
    exact congrArg (PyDate.mk y m) (by omega)

lemma subDays_within (y m dd n : ℕ) (h : n < dd) :
    subDays ⟨y, m, dd⟩ n = ⟨y, m, dd - n⟩ := by
  induction n with
  | zero => rfl
  | succ n ih =>
    have e : subDays (⟨y, m, dd⟩ : PyDate) (n + 1) = prevDay (subDays ⟨y, m, dd⟩ n) :=
      Function.iterate_succ_apply' _ _ _
    rw [e, ih (by omega)]
    unfold prevDay
    dsimp only
    rw [if_pos (by omega)]
    exact congrArg (PyDate.mk y m) (by omega)

lemma prevDay_first_of_month (y m : ℕ) (h : 2 ≤ m) :
    prevDay ⟨y, m, 1⟩ = ⟨y, m - 1, daysInMonth y (m - 1)⟩ := by
  unfold prevDay
  dsimp only
  rw [if_neg (by omega), if_pos (by omega)]

lemma prevDay_jan_first (y : ℕ) : prevDay ⟨y, 1, 1⟩ = ⟨y - 1, 12, 31⟩ := by
  unfold prevDay
  dsimp only
  rw [if_neg (by omega), if_neg (by omega)]

lemma weekday_lt (d : PyDate) : d.weekday < 7 := Nat.mod_lt _ (by norm_num)

lemma ymF_step (n : ℕ) (h : 12 ≤ n) : ymF n < ymF (n + 1) := by
  have hq : 1 ≤ n / 12 := by omega
  by_cases hr : n % 12 < 11
  · have e1 : (n + 1) / 12 = n / 12 := by omega
    have e2 : (n + 1) % 12 = n % 12 + 1 := by omega
    have hmb := daysInMonth_bounds (n / 12) (n % 12 + 1) (by omega) (by omega)
    unfold ymF
    rw [e1, e2]
    have e3 : daysBeforeMonth (n / 12) (n % 12 + 1 + 1) =
        daysBeforeMonth (n / 12) (n % 12 + 1) + daysInMonth (n / 12) (n % 12 + 1) :=
      daysBeforeMonth_succ _ _
    omega
  · have hr11 : n % 12 = 11 := by omega
    have e1 : (n + 1) / 12 = n / 12 + 1 := by omega
    have e2 : (n + 1) % 12 = 0 := by omega
    unfold ymF
    rw [e1, e2, hr11]
    have e11 : (11 : ℕ) + 1 = 12 := rfl
    rw [e11]
    have es : daysBeforeYear (n / 12 + 1) = daysBeforeYear (n / 12) + daysInYear (n / 12) :=
      daysBeforeYear_succ _ hq
    have e13 : daysBeforeMonth (n / 12) 13 = daysInYear (n / 12) := daysBeforeMonth_thirteen _
    have e12 : daysBeforeMonth (n / 12) 13 =
        daysBeforeMonth (n / 12) 12 + daysInMonth (n / 12) 12 := daysBeforeMonth_succ _ 12
    have h31 : daysInMonth (n / 12) 12 = 31 := rfl
    have e0 : daysBeforeMonth (n / 12 + 1) (0 + 1) = 0 := rfl
    omega

lemma ymF_mono (a b : ℕ) (ha : 12 ≤ a) (hab : a ≤ b) : ymF a ≤ ymF b := by
  induction b, hab using Nat.le_induction with
  | base => exact le_refl _
  | succ b hb ih => exact le_trans ih (le_of_lt (ymF_step b (by omega)))

lemma toordinal_ge_ymF (d : PyDate) (hv : isValidDate d) :
    ymF (d.year * 12 + d.month - 1) ≤ toordinal d := by
  obtain ⟨y, m, dd⟩ := d
  rw [isValidDate_def] at hv
  dsimp only at hv
  obtain ⟨h1, h2, h3, h4, h5⟩ := hv
  dsimp only
  have e1 : (y * 12 + m - 1) / 12 = y := by omega
  have e2 : (y * 12 + m - 1) % 12 = m - 1 := by omega
  unfold ymF
  rw [e1, e2]
  have e3 : m - 1 + 1 = m := by omega
  rw [e3, toordinal_def]
  try dsimp only
  omega

lemma toordinal_lt_ymF (d : PyDate) (hv : isValidDate d) :
    toordinal d < ymF (d.year * 12 + d.month) := by
  obtain ⟨y, m, dd⟩ := d
  rw [isValidDate_def] at hv
  dsimp only at hv
  obtain ⟨h1, h2, h3, h4, h5⟩ := hv
  dsimp only
  by_cases hm : m ≤ 11
  · have e1 : (y * 12 + m) / 12 = y := by omega
    have e2 : (y * 12 + m) % 12 = m := by omega
    unfold ymF
    rw [e1, e2]
    have e3 : daysBeforeMonth y (m + 1) = daysBeforeMonth y m + daysInMonth y m :=
      daysBeforeMonth_succ _ _
    rw [toordinal_def]
    try dsimp only
    omega
  · have hm12 : m = 12 := by omega
    subst hm12
    have e1 : (y * 12 + 12) / 12 = y + 1 := by omega
    have e2 : (y * 12 + 12) % 12 = 0 := by omega
    unfold ymF
    rw [e1, e2]
    have es : daysBeforeYear (y + 1) = daysBeforeYear y + daysInYear y :=
      daysBeforeYear_succ _ h1
    have e13 : daysBeforeMonth y 13 = daysInYear y := daysBeforeMonth_thirteen _
    have e12 : daysBeforeMonth y 13 = daysBeforeMonth y 12 + daysInMonth y 12 :=
      daysBeforeMonth_succ _ 12
    have e0 : daysBeforeMonth (y + 1) (0 + 1) = 0 := rfl
    rw [toordinal_def]
    try dsimp only
    omega

lemma toordinal_lt_of_ym_lt (d1 d2 : PyDate) (h1 : isValidDate d1) (h2 : isValidDate d2)
    (h : d1.year * 12 + d1.month < d2.year * 12 + d2.month) :
    toordinal d1 < toordinal d2 := by
  have u := toordinal_lt_ymF d1 h1
  have l := toordinal_ge_ymF d2 h2
  have hy1 : 1 ≤ d1.year := h1.1
  have hm1 : 1 ≤ d1.month := h1.2.1
  have hmono : ymF (d1.year * 12 + d1.month) ≤ ymF (d2.year * 12 + d2.month - 1) :=
    ymF_mono _ _ (by omega) (by omega)
  omega

/-!  Structural lemmas about the calendar primitives.  -/

lemma weekday_def (d : PyDate) : d.weekday = (toordinal d + 6) % 7 := rfl

lemma weekday_addDays (d : PyDate) (n : ℕ) (hv : isValidDate d) :
    (addDays d n).weekday = (d.weekday + n) % 7 := by
  obtain ⟨-, e⟩ := addDays_spec d n hv
  rw [weekday_def, weekday_def, e]
  omega

lemma mkDate_eq_some {y m : ℕ} {dv : ℤ} {s : PyDate} (h : mkDate y m dv = some s) :
    s = ⟨y, m, dv.toNat⟩ ∧ 1 ≤ y ∧ 1 ≤ m ∧ m ≤ 12 ∧ 1 ≤ dv ∧
      dv ≤ (daysInMonth y m : ℤ) := by
  unfold mkDate at h
  split_ifs at h with hc
  · exact ⟨(Option.some.inj h).symm, hc.1, hc.2.1, hc.2.2.1, hc.2.2.2.1, hc.2.2.2.2⟩

lemma mkDate_isSome (y m : ℕ) (dv : ℤ) (h1 : 1 ≤ y) (h2 : 1 ≤ m) (h3 : m ≤ 12)
    (h4 : 1 ≤ dv) (h5 : dv ≤ (daysInMonth y m : ℤ)) :
    mkDate y m dv = some ⟨y, m, dv.toNat⟩ := by
  unfold mkDate
  rw [if_pos ⟨h1, h2, h3, h4, h5⟩]

lemma mkDate_isNone (y m : ℕ) (dv : ℤ)
    (h : ¬(1 ≤ y ∧ 1 ≤ m ∧ m ≤ 12 ∧ 1 ≤ dv ∧ dv ≤ (daysInMonth y m : ℤ))) :
    mkDate y m dv = none := by
  unfold mkDate
  rw [if_neg h]

lemma monthAdv_id (m i : ℕ) :
    (monthAdv m i).1 + 12 * (monthAdv m i).2 = m + i ∧ (monthAdv m i).2 = (m + i) / 13 := by
  unfold monthAdv
  dsimp only
  omega

lemma nthWeekdayAux_spec (y m dd : ℕ) (o w : ℤ) (hy : 1 ≤ y) (hm1 : 1 ≤ m) (hm2 : m ≤ 12)
    (ho1 : 1 ≤ o) (ho4 : o ≤ 4) :
    ∃ k : ℕ, nthWeekdayAux ⟨y, m, dd⟩ o w = ⟨y, m, k⟩ ∧ 1 ≤ k ∧ k ≤ 28 ∧
      (k : ℤ) = 1 + (w - 1 - ((⟨y, m, 1⟩ : PyDate).weekday : ℤ)) % 7 + 7 * (o - 1) := by
  unfold nthWeekdayAux
  dsimp only
  have hmod1 : 0 ≤ (w - 1 - ((⟨y, m, 1⟩ : PyDate).weekday : ℤ)) % 7 :=
    Int.emod_nonneg _ (by norm_num)
  have hmod2 : (w - 1 - ((⟨y, m, 1⟩ : PyDate).weekday : ℤ)) % 7 < 7 :=
    Int.emod_lt_of_pos _ (by norm_num)
  have hdim := daysInMonth_bounds y m hm1 hm2
  have e1 : addDays ⟨y, m, 1⟩ ((w - 1 - ((⟨y, m, 1⟩ : PyDate).weekday : ℤ)) % 7).toNat =
      ⟨y, m, 1 + ((w - 1 - ((⟨y, m, 1⟩ : PyDate).weekday : ℤ)) % 7).toNat⟩ :=
    addDays_within y m 1 _ (le_refl 1) (by omega)
  rw [e1]
  unfold addDaysInt
  rw [if_pos (by omega : (0 : ℤ) ≤ 7 * (o - 1))]
  have e2 : addDays ⟨y, m, 1 + ((w - 1 - ((⟨y, m, 1⟩ : PyDate).weekday : ℤ)) % 7).toNat⟩
        ((7 * (o - 1)).toNat) =
      ⟨y, m, 1 + ((w - 1 - ((⟨y, m, 1⟩ : PyDate).weekday : ℤ)) % 7).toNat +
        (7 * (o - 1)).toNat⟩ :=
    addDays_within y m _ _ (by omega) (by omega)
  rw [e2]
  exact ⟨_, rfl, by omega, by omega, by omega⟩

lemma subDays_from_first (Y M y2 m2 k : ℕ) (hk1 : 1 ≤ k) (hk7 : k ≤ 7)
    (hprev : prevDay ⟨Y, M, 1⟩ = ⟨y2, m2, daysInMonth y2 m2⟩)
    (hdim : 28 ≤ daysInMonth y2 m2) :
    subDays ⟨Y, M, k⟩ 7 = ⟨y2, m2, daysInMonth y2 m2 - (7 - k)⟩ := by
  have e0 : subDays (⟨Y, M, k⟩ : PyDate) 7 = subDays (subDays ⟨Y, M, k⟩ (k - 1)) (8 - k) := by
    unfold subDays
    rw [← Function.iterate_add_apply]
    congr 1
    omega
  have e1 : subDays (⟨Y, M, k⟩ : PyDate) (k - 1) = ⟨Y, M, 1⟩ := by
    rw [subDays_within Y M k (k - 1) (by omega)]
    exact congrArg (PyDate.mk Y M) (by omega)
  have e2 : subDays (⟨Y, M, 1⟩ : PyDate) (8 - k) = subDays (prevDay ⟨Y, M, 1⟩) (7 - k) := by
    unfold subDays
    rw [show 8 - k = (7 - k) + 1 from by omega, Function.iterate_add_apply]
    rfl
  rw [e0, e1, e2, hprev, subDays_within y2 m2 _ _ (by omega)]

/-- Core of the `ordinal = 5` ("last") computation of `get_nth_weekday_of_month`:
it lands on the last occurrence of the requested weekday in the month of
`cur_date`, in every month including the December→January rollover. -/
lemma last_weekday_of_month_spec (y m dd : ℕ) (w : ℤ) (hy : 1 ≤ y) (hm1 : 1 ≤ m)
    (hm2 : m ≤ 12) (hw1 : 1 ≤ w) (hw7 : w ≤ 7) :
    ∃ rd : PyDate,
      get_nth_weekday_of_month ⟨y, m, dd⟩ 5 w = some rd ∧
      rd.year = y ∧ rd.month = m ∧ isValidDate rd ∧
      daysInMonth y m - 6 ≤ rd.day ∧ rd.day ≤ daysInMonth y m ∧
      (rd.weekday : ℤ) = w - 1 ∧
      ∀ j, 1 ≤ j → j ≤ daysInMonth y m → ((⟨y, m, j⟩ : PyDate).weekday : ℤ) = w - 1 →
        j ≤ rd.day := by
  unfold get_nth_weekday_of_month
  rw [if_neg (by omega), if_neg (by omega), if_pos rfl]
  have hdim := daysInMonth_bounds y m hm1 hm2
  obtain ⟨Y, M, hY, hM1, hM2, enm, hprev, hord⟩ :
      ∃ Y M, 1 ≤ Y ∧ 1 ≤ M ∧ M ≤ 12 ∧ nextMonthDate ⟨y, m, dd⟩ = ⟨Y, M, 1⟩ ∧
        prevDay ⟨Y, M, 1⟩ = ⟨y, m, daysInMonth y m⟩ ∧
        toordinal ⟨Y, M, 1⟩ =
          daysBeforeYear y + daysBeforeMonth y m + daysInMonth y m + 1 := by
    by_cases hm11 : m < 12
    · refine ⟨y, m + 1, hy, by omega, by omega, ?_, ?_, ?_⟩
      · unfold nextMonthDate
        dsimp only
        rw [if_pos hm11]
      · rw [prevDay_first_of_month y (m + 1) (by omega)]
        rfl
      · rw [toordinal_def]
        dsimp only
        rw [daysBeforeMonth_succ]
        omega
    · have hm12 : m = 12 := by omega
      subst hm12
      refine ⟨y + 1, 1, by omega, le_refl 1, by omega, ?_, ?_, ?_⟩
      · unfold nextMonthDate
        dsimp only
        rw [if_neg (by omega)]
      · rw [prevDay_jan_first (y + 1)]
        rfl
      · rw [toordinal_def]
        dsimp only
        rw [daysBeforeMonth_one, daysBeforeYear_succ y hy]
        have e13 : daysBeforeMonth y 13 = daysInYear y := daysBeforeMonth_thirteen y
        have e12 : daysBeforeMonth y 13 = daysBeforeMonth y 12 + daysInMonth y 12 :=
          daysBeforeMonth_succ y 12
        have h31 : daysInMonth y 12 = 31 := rfl
        omega
  rw [enm]
  obtain ⟨k, ek, hk1, -, hkz⟩ :=
    nthWeekdayAux_spec Y M 1 1 w hY hM1 hM2 (le_refl 1) (by norm_num)
  have hmod1 : 0 ≤ (w - 1 - ((⟨Y, M, 1⟩ : PyDate).weekday : ℤ)) % 7 :=
    Int.emod_nonneg _ (by norm_num)
  have hmod2 : (w - 1 - ((⟨Y, M, 1⟩ : PyDate).weekday : ℤ)) % 7 < 7 :=
    Int.emod_lt_of_pos _ (by norm_num)
  have hk7 : k ≤ 7 := by omega
  rw [ek, subDays_from_first Y M y m k hk1 hk7 hprev (by omega)]
  have hwdnm : ((⟨Y, M, 1⟩ : PyDate).weekday : ℤ) =
      ((daysBeforeYear y + daysBeforeMonth y m + daysInMonth y m + 1 + 6) % 7 : ℕ) := by
    rw [weekday_def, hord]
  have hwrd : ((⟨y, m, daysInMonth y m - (7 - k)⟩ : PyDate).weekday : ℤ) =
      ((daysBeforeYear y + daysBeforeMonth y m + (daysInMonth y m - (7 - k)) + 6) % 7 : ℕ) := by
    rw [weekday_def, toordinal_def]
  refine ⟨⟨y, m, daysInMonth y m - (7 - k)⟩, rfl, rfl, rfl, ?_, by dsimp only; omega,
    by dsimp only; omega, ?_, ?_⟩
  · rw [isValidDate_def]
    dsimp only
    omega
  · rw [hwrd]
    omega
  · intro j hj1 hj2 hjw
    have hwj : ((⟨y, m, j⟩ : PyDate).weekday : ℤ) =
        ((daysBeforeYear y + daysBeforeMonth y m + j + 6) % 7 : ℕ) := by
      rw [weekday_def, toordinal_def]
    rw [hwj] at hjw
    rw [hwrd] at *
    dsimp only
    omega

/-!  Workday primitives.  -/

lemma get_first_workday_spec (y m dd : ℕ) (hm1 : 1 ≤ m) (hm2 : m ≤ 12) :
    ∃ k, get_first_workday_of_month ⟨y, m, dd⟩ = ⟨y, m, k⟩ ∧ 1 ≤ k ∧ k ≤ 3 := by
  have hdim := daysInMonth_bounds y m hm1 hm2
  unfold get_first_workday_of_month
  dsimp only
  split_ifs with h
  · rcases h with h5 | h6
    · rw [h5, addDays_within y m 1 2 (le_refl 1) (by omega)]
      exact ⟨3, rfl, by omega, by omega⟩
    · rw [h6, addDays_within y m 1 1 (le_refl 1) (by omega)]
      exact ⟨2, rfl, by omega, by omega⟩
  · exact ⟨1, rfl, le_refl 1, by omega⟩

lemma get_nth_workday_spec (y m dd : ℕ) (o : ℤ) (hm1 : 1 ≤ m) (hm2 : m ≤ 12)
    (ho1 : 1 ≤ o) (ho4 : o ≤ 4) :
    ∃ k, get_nth_workday_of_month ⟨y, m, dd⟩ o = ⟨y, m, k⟩ ∧ 1 ≤ k ∧ k ≤ 8 := by
  have hdim := daysInMonth_bounds y m hm1 hm2
  obtain ⟨f, ef, hf1, hf3⟩ := get_first_workday_spec y m dd hm1 hm2
  unfold get_nth_workday_of_month
  rw [ef]
  dsimp only
  unfold addDaysInt
  rw [if_pos (by omega : (0 : ℤ) ≤ o - 1)]
  rw [addDays_within y m f ((o - 1).toNat) (by omega) (by omega)]
  split_ifs with h
  · rw [addDays_within y m _ 2 (by omega) (by omega)]
    exact ⟨f + (o - 1).toNat + 2, rfl, by omega, by omega⟩
  · exact ⟨f + (o - 1).toNat, rfl, by omega, by omega⟩

lemma get_last_workday_spec (y m dd : ℕ) (hm1 : 1 ≤ m) (hm2 : m ≤ 12) :
    ∃ k, get_last_workday_of_month ⟨y, m, dd⟩ = ⟨y, m, k⟩ ∧
      daysInMonth y m - 2 ≤ k ∧ k ≤ daysInMonth y m ∧ 1 ≤ k := by
  have hdim := daysInMonth_bounds y m hm1 hm2
  unfold get_last_workday_of_month
  dsimp only
  split_ifs with h
  · rcases h with h5 | h6
    · rw [h5, subDays_within y m _ 1 (by omega)]
      exact ⟨daysInMonth y m - 1, rfl, by omega, by omega, by omega⟩
    · rw [h6, subDays_within y m _ 2 (by omega)]
      exact ⟨daysInMonth y m - 2, rfl, by omega, by omega, by omega⟩
  · exact ⟨daysInMonth y m, rfl, by omega, by omega, by omega⟩

lemma get_next_weekday_spec (c : PyDate) (w : ℤ) (hv : isValidDate c) (hw1 : 1 ≤ w)
    (hw7 : w ≤ 7) (h8 : 8 ≤ toordinal c) :
    isValidDate (get_next_weekday c w) ∧
      (toordinal (get_next_weekday c w) : ℤ) = toordinal c + (w - 1 - (c.weekday : ℤ)) := by
  have hwd : c.weekday < 7 := weekday_lt c
  unfold get_next_weekday addDaysInt
  split_ifs with h
  · obtain ⟨v1, v2⟩ := addDays_spec c (w - 1 - (c.weekday : ℤ)).toNat hv
    exact ⟨v1, by rw [v2]; omega⟩
  · obtain ⟨v1, v2⟩ := subDays_spec c (-(w - 1 - (c.weekday : ℤ))).toNat hv (by omega)
    exact ⟨v1, by omega⟩

lemma get_next_workday_by_interval_spec (d : PyDate) (n : ℕ) (hv : isValidDate d) :
    isValidDate (get_next_workday_by_interval d n) ∧
      toordinal d + n ≤ toordinal (get_next_workday_by_interval d n) ∧
      toordinal (get_next_workday_by_interval d n) ≤ toordinal d + n + 2 := by
  obtain ⟨v1, v2⟩ := addDays_spec d n hv
  unfold get_next_workday_by_interval
  dsimp only
  split_ifs with h
  · obtain ⟨u1, u2⟩ := addDays_spec (addDays d n) 2 v1
    exact ⟨u1, by omega, by omega⟩
  · exact ⟨v1, by omega, by omega⟩

/-!  Monotonicity of the evaluator branches.  -/

lemma truthy_some_pos {v : ℤ} (h : 1 ≤ v) : truthy (some v) = true := by
  simp only [truthy, bne_iff_ne, ne_eq]
  omega

lemma truthy_none : truthy none = false := rfl

lemma getVal_some (v : ℤ) : getVal (some v) = v := rfl

/-- A date with day `k` inside the month reached by the `interval`-month
advance lies strictly after the starting date. -/
lemma lt_into_target (d : PyDate) (i Y tm k : ℕ) (hd : isValidDate d) (hi : 1 ≤ i)
    (hY : Y = d.year + (monthAdv d.month i).2) (htm : tm = (monthAdv d.month i).1)
    (hk1 : 1 ≤ k) (hkd : k ≤ daysInMonth Y tm) (htm1 : 1 ≤ tm) (htm12 : tm ≤ 12) :
    isValidDate ⟨Y, tm, k⟩ ∧ toordinal d < toordinal ⟨Y, tm, k⟩ := by
  have hid := monthAdv_id d.month i
  have hd' := hd
  rw [isValidDate_def] at hd'
  have hv : isValidDate ⟨Y, tm, k⟩ := by
    rw [isValidDate_def]
    dsimp only
    omega
  refine ⟨hv, toordinal_lt_of_ym_lt d ⟨Y, tm, k⟩ hd hv ?_⟩
  dsimp only
  omega

lemma get_weekday_period_mono (r : RecurringEvent) (d e : PyDate) (hd : isValidDate d)
    (hint : 1 ≤ r.interval) (wv : ℤ) (hw : r.weekday = some wv) (hw1 : 1 ≤ wv) (hw7 : wv ≤ 7)
    (hord : ∀ v, r.ordinal = some v → 1 ≤ v ∧ v ≤ 5)
    (he : r.get_weekday_period d = some e) :
    isValidDate e ∧ toordinal d < toordinal e := by
  unfold RecurringEvent.get_weekday_period at he
  rcases ho : r.ordinal with _ | ov
  · rw [ho, truthy_none] at he
    rw [if_neg (by simp)] at he
    obtain rfl : get_next_weekday (addDays d (7 * r.interval)) (getVal r.weekday) = e :=
      Option.some.inj he
    rw [hw, getVal_some]
    obtain ⟨cv, ce⟩ := addDays_spec d (7 * r.interval) hd
    have hpos := toordinal_pos d hd
    obtain ⟨sv, se⟩ := get_next_weekday_spec (addDays d (7 * r.interval)) wv cv hw1 hw7
      (by omega)
    have hwdc := weekday_lt (addDays d (7 * r.interval))
    exact ⟨sv, by omega⟩
  · obtain ⟨ho1, ho5⟩ := hord ov ho
    rw [ho, truthy_some_pos ho1] at he
    rw [if_pos rfl] at he
    rcases hmk : mkDate (d.year + (monthAdv d.month r.interval).2)
        (monthAdv d.month r.interval).1 1 with _ | s
    · rw [hmk] at he
      exact Option.noConfusion he
    · rw [hmk] at he
      dsimp only at he
      obtain ⟨rfl, hY1, htm1, htm12, -, -⟩ := mkDate_eq_some hmk
      rw [hw, getVal_some, getVal_some] at he
      by_cases h5 : ov = 5
      · subst h5
        obtain ⟨rd, erd, rdy, rdm, rdv, -, -, -, -⟩ :=
          last_weekday_of_month_spec (d.year + (monthAdv d.month r.interval).2)
            (monthAdv d.month r.interval).1 ((1 : ℤ)).toNat wv hY1 htm1 htm12 hw1 hw7
        rw [erd] at he
        obtain rfl : rd = e := Option.some.inj he
        obtain ⟨Y2, M2, D2⟩ := rd
        dsimp only at rdy rdm
        subst rdy; subst rdm
        rw [isValidDate_def] at rdv
        dsimp only at rdv
        exact lt_into_target d r.interval _ _ D2 hd hint rfl rfl (by omega)
          (by exact rdv.2.2.2.2) htm1 htm12
      · unfold get_nth_weekday_of_month at he
        rw [if_neg (by omega), if_neg (by omega), if_neg (by omega : ¬ov = 5)] at he
        obtain ⟨k, ek, hk1, hk28, -⟩ := nthWeekdayAux_spec
          (d.year + (monthAdv d.month r.interval).2) (monthAdv d.month r.interval).1
          ((1 : ℤ)).toNat ov wv hY1 htm1 htm12 ho1 (by omega)
        rw [ek] at he
        obtain rfl : (⟨_, _, k⟩ : PyDate) = e := Option.some.inj he
        have hdim := daysInMonth_bounds (d.year + (monthAdv d.month r.interval).2)
          (monthAdv d.month r.interval).1 htm1 htm12
        exact lt_into_target d r.interval _ _ k hd hint rfl rfl hk1 (by omega) htm1 htm12

lemma get_ordinal_workday_period_mono (r : RecurringEvent) (d e : PyDate) (hd : isValidDate d)
    (hint : 1 ≤ r.interval) (hord : ∀ v, r.ordinal = some v → 1 ≤ v ∧ v ≤ 5)
    (he : r.get_ordinal_workday_period d = some e) :
    isValidDate e ∧ toordinal d < toordinal e := by
  unfold RecurringEvent.get_ordinal_workday_period at he
  rcases hmk : mkDate (d.year + (monthAdv d.month r.interval).2)
      (monthAdv d.month r.interval).1 1 with _ | s
  · rw [hmk] at he
    exact Option.noConfusion he
  · rw [hmk] at he
    dsimp only at he
    obtain ⟨rfl, hY1, htm1, htm12, -, -⟩ := mkDate_eq_some hmk
    have hdim := daysInMonth_bounds (d.year + (monthAdv d.month r.interval).2)
      (monthAdv d.month r.interval).1 htm1 htm12
    by_cases h5 : r.ordinal = some 5
    · rw [if_pos h5] at he
      obtain ⟨k, ek, hk2, hkd, hk1⟩ := get_last_workday_spec
        (d.year + (monthAdv d.month r.interval).2) (monthAdv d.month r.interval).1
        ((1 : ℤ)).toNat htm1 htm12
      rw [ek] at he
      obtain rfl : (⟨_, _, k⟩ : PyDate) = e := Option.some.inj he
      exact lt_into_target d r.interval _ _ k hd hint rfl rfl hk1 hkd htm1 htm12
    · rw [if_neg h5] at he
      rcases ho : r.ordinal with _ | ov
      · rw [ho] at he
        exact Option.noConfusion he
      · obtain ⟨ho1, ho5⟩ := hord ov ho
        have ho4 : ov ≤ 4 := by
          rcases lt_or_eq_of_le ho5 with h | h
          · omega
          · exact absurd (ho.trans (by rw [h])) h5
        rw [ho] at he
        dsimp only at he
        obtain ⟨k, ek, hk1, hk8⟩ := get_nth_workday_spec
          (d.year + (monthAdv d.month r.interval).2) (monthAdv d.month r.interval).1
          ((1 : ℤ)).toNat ov htm1 htm12 ho1 ho4
        rw [ek] at he
        obtain rfl : (⟨_, _, k⟩ : PyDate) = e := Option.some.inj he
        exact lt_into_target d r.interval _ _ k hd hint rfl rfl hk1 (by omega) htm1 htm12

lemma get_day_period_mono (r : RecurringEvent) (d e : PyDate) (hd : isValidDate d)
    (hint : 1 ≤ r.interval) (hday : ∀ v, r.day = some v → 1 ≤ v ∧ v ≤ 31)
    (he : r.get_day_period d = some e) :
    isValidDate e ∧ toordinal d < toordinal e := by
  unfold RecurringEvent.get_day_period at he
  rcases hdv : r.day with _ | dv
  · rw [hdv] at he
    exact Option.noConfusion he
  · obtain ⟨hd1, hd31⟩ := hday dv hdv
    rw [hdv] at he
    dsimp only at he
    rcases hmk : mkDate (d.year + (monthAdv d.month r.interval).2)
        (monthAdv d.month r.interval).1 dv with _ | event
    · rw [hmk] at he
      dsimp only at he
      rcases hmk2 : mkDate (d.year + (monthAdv d.month r.interval).2)
          ((monthAdv d.month r.interval).1 + 1) 1 with _ | s
      · rw [hmk2] at he
        exact Option.noConfusion he
      · rw [hmk2] at he
        dsimp only at he
        obtain ⟨rfl, hY1, htm1', htm12', -, -⟩ := mkDate_eq_some hmk2
        have htm1 : 1 ≤ (monthAdv d.month r.interval).1 := by
          have hid := monthAdv_id d.month r.interval
          have hdm1 : 1 ≤ d.month := hd.2.1
          omega
        simp only [Int.toNat_one] at he
        rw [prevDay_first_of_month _ _ (by omega : 2 ≤ (monthAdv d.month r.interval).1 + 1)]
          at he
        have em : (monthAdv d.month r.interval).1 + 1 - 1 = (monthAdv d.month r.interval).1 :=
          rfl
        rw [em] at he
        obtain rfl : (⟨_, _, _⟩ : PyDate) = e := Option.some.inj he
        have hdim := daysInMonth_bounds (d.year + (monthAdv d.month r.interval).2)
          (monthAdv d.month r.interval).1 htm1 (by omega)
        exact lt_into_target d r.interval _ _ _ hd hint rfl rfl (by omega) (le_refl _)
          htm1 (by omega)
    · rw [hmk] at he
      dsimp only at he
      obtain rfl : event = e := Option.some.inj he
      obtain ⟨rfl, hY1, htm1, htm12, hdv1, hdvd⟩ := mkDate_eq_some hmk
      exact lt_into_target d r.interval _ _ _ hd hint rfl rfl (by omega) (by omega)
        htm1 htm12

/-- Every branch of `get_next_date` that produces a date produces a valid date
strictly after the reference date (for in-range rule fields and positive
interval). -/
lemma get_next_date_mono (r : RecurringEvent)
    (hday : ∀ v, r.day = some v → 1 ≤ v ∧ v ≤ 31)
    (hord : ∀ v, r.ordinal = some v → 1 ≤ v ∧ v ≤ 5)
    (hwd : ∀ v, r.weekday = some v → 1 ≤ v ∧ v ≤ 8)
    (hint : 1 ≤ r.interval) (d e : PyDate) (hd : isValidDate d)
    (he : r.get_next_date d = NextResult.date e) :
    isValidDate e ∧ toordinal d < toordinal e := by
  unfold RecurringEvent.get_next_date at he
  rcases hw : r.weekday with _ | wv
  · rw [hw, truthy_none] at he
    rw [if_neg (by simp)] at he
    rcases hdv : r.day with _ | dv
    · rw [hdv, truthy_none] at he
      rw [if_neg (by simp)] at he
      by_cases h1 : r.recurs = 1
      · rw [if_pos h1] at he
        obtain rfl : r.get_daily_period d = e := NextResult.date.inj he
        unfold RecurringEvent.get_daily_period
        obtain ⟨v1, v2⟩ := addDays_spec d r.interval hd
        exact ⟨v1, by omega⟩
      · rw [if_neg h1] at he
        by_cases h2 : r.recurs = 2
        · rw [if_pos h2] at he
          unfold RecurringEvent.get_workdaily_period at he
          rcases ho : r.ordinal with _ | ov
          · rw [ho, truthy_none] at he
            rw [if_neg (by simp)] at he
            obtain rfl : get_next_workday_by_interval d r.interval = e :=
              Option.some.inj (by
                unfold ofOpt at he
                exact congrArg some (NextResult.date.inj he))
            obtain ⟨v1, v2, v3⟩ := get_next_workday_by_interval_spec d r.interval hd
            exact ⟨v1, by omega⟩
          · obtain ⟨ho1, -⟩ := hord ov ho
            rw [ho, truthy_some_pos ho1] at he
            rw [if_pos rfl] at he
            exact NextResult.noConfusion he
        · rw [if_neg h2] at he
          exact NextResult.noConfusion he
    · obtain ⟨hd1, -⟩ := hday dv hdv
      rw [hdv, truthy_some_pos hd1] at he
      rw [if_pos rfl] at he
      rcases hp : r.get_day_period d with _ | e2
      · rw [hp] at he
        exact NextResult.noConfusion he
      · rw [hp] at he
        obtain rfl : e2 = e := NextResult.date.inj he
        exact get_day_period_mono r d e2 hd hint hday hp
  · obtain ⟨hw1, hw8⟩ := hwd wv hw
    rw [hw, truthy_some_pos hw1] at he
    rw [if_pos rfl, getVal_some] at he
    by_cases hlt : wv < 8
    · rw [if_pos hlt] at he
      rcases hp : r.get_weekday_period d with _ | e2
      · rw [hp] at he
        exact NextResult.noConfusion he
      · rw [hp] at he
        obtain rfl : e2 = e := NextResult.date.inj he
        exact get_weekday_period_mono r d e2 hd hint wv hw hw1 (by omega) hord hp
    · rw [if_neg hlt] at he
      rcases hp : r.get_ordinal_workday_period d with _ | e2
      · rw [hp] at he
        exact NextResult.noConfusion he
      · rw [hp] at he
        obtain rfl : e2 = e := NextResult.date.inj he
        exact get_ordinal_workday_period_mono r d e2 hd hint hord hp

/-!  The enumeration loop.  -/

lemma get_next_date_update (r : RecurringEvent) (x : PyDate) (ie : Option PyDate)
    (d : PyDate) :
    RecurringEvent.get_next_date ⟨x, r.recurs, r.interval, r.day, r.ordinal, r.weekday, ie⟩ d
      = r.get_next_date d := by
  cases r
  rfl

lemma get_events_some (r : RecurringEvent) (hor : PyDate) (fuel : ℕ) :
    r.get_events (some hor) fuel =
      getEventsLoop hor fuel { r with interval_end := some hor } [] := rfl

lemma chain_cons (f : PyDate → PyDate) (x : PyDate) (n : ℕ) :
    f x :: (List.range n).map (fun k => f^[k + 1 + 1] x) =
      (List.range (n + 1)).map (fun k => f^[k + 1] x) := by
  rw [List.range_succ_eq_map, List.map_cons, List.map_map]
  congr 1

/-- One unfolding of the loop when the evaluator yields a date. -/
lemma getEventsLoop_step (hor : PyDate) (fuel : ℕ) (r : RecurringEvent) (acc : List PyDate)
    (e : PyDate) (hnext : r.get_next_date r.last_occurence = NextResult.date e) :
    getEventsLoop hor (fuel + 1) r acc =
      if toordinal hor < toordinal e then EnumResult.ok acc r
      else getEventsLoop hor fuel { r with last_occurence := e } (acc ++ [e]) := by
  show (match r.get_next_date r.last_occurence with
    | NextResult.date e =>
      if toordinal hor < toordinal e then EnumResult.ok acc r
      else getEventsLoop hor fuel { r with last_occurence := e } (acc ++ [e])
    | NextResult.noneRet => EnumResult.error
    | NextResult.error => EnumResult.error) = _
  rw [hnext]

/-- Main loop invariant: with a total, strictly increasing evaluator and
enough fuel, the loop returns the maximal chain whose elements stay within
the horizon, advances the cursor to the last collected date, and touches no
other field. -/
lemma getEventsLoop_spec (hor : PyDate) (f : PyDate → PyDate) :
    ∀ (fuel : ℕ) (r : RecurringEvent) (acc : List PyDate),
    (∀ d, isValidDate d → r.get_next_date d = NextResult.date (f d) ∧ isValidDate (f d) ∧
      toordinal d < toordinal (f d)) →
    isValidDate r.last_occurence →
    0 < fuel →
    toordinal hor + 1 < toordinal r.last_occurence + fuel →
    ∃ n : ℕ,
      getEventsLoop hor fuel r acc =
        EnumResult.ok (acc ++ (List.range n).map (fun k => f^[k + 1] r.last_occurence))
          { r with last_occurence := f^[n] r.last_occurence } ∧
      (∀ k, k < n → toordinal (f^[k + 1] r.last_occurence) ≤ toordinal hor) ∧
      toordinal hor < toordinal (f^[n + 1] r.last_occurence) ∧
      isValidDate (f^[n] r.last_occurence) := by
  intro fuel
  induction fuel with
  | zero =>
    intro r acc hf hv h0 hfuel
    exact absurd h0 (by omega)
  | succ fuel ih =>
    intro r acc hf hv h0 hfuel
    obtain ⟨hnext, hvf, hlt⟩ := hf r.last_occurence hv
    have estep := getEventsLoop_step hor fuel r acc (f r.last_occurence) hnext
    by_cases hcmp : toordinal hor < toordinal (f r.last_occurence)
    · refine ⟨0, ?_, by omega, hcmp, hv⟩
      rw [estep, if_pos hcmp]
      simp only [List.range_zero, List.map_nil, List.append_nil]
      rfl
    · push_neg at hcmp
      have hf2 : ∀ d, isValidDate d →
          RecurringEvent.get_next_date { r with last_occurence := f r.last_occurence } d =
              NextResult.date (f d) ∧
            isValidDate (f d) ∧ toordinal d < toordinal (f d) := by
        intro d hd
        rw [show ({ r with last_occurence := f r.last_occurence } : RecurringEvent) =
          ⟨f r.last_occurence, r.recurs, r.interval, r.day, r.ordinal, r.weekday,
            r.interval_end⟩ from rfl, get_next_date_update]
        exact hf d hd
      obtain ⟨n, e1, e2, e3, e4⟩ := ih { r with last_occurence := f r.last_occurence }
        (acc ++ [f r.last_occurence]) hf2 hvf (by omega) (by dsimp only; omega)
      dsimp only at e1 e2 e3 e4
      simp only [← Function.iterate_succ_apply] at e1 e2 e3 e4
      refine ⟨n + 1, ?_, ?_, e3, e4⟩
      · rw [estep, if_neg (by omega), e1, List.append_assoc, List.singleton_append,
          chain_cons]
      · intro k hk
        match k with
        | 0 => exact hcmp
        | j + 1 => exact e2 j (by omega)

/-!  Constructor lemmas.  -/

lemma noneIfZero_ne_zero {x : Option ℤ} {v : ℤ} (h : noneIfZero x = some v) : v ≠ 0 := by
  match x with
  | none => exact Option.noConfusion h
  | some w =>
    replace h : (if w = 0 then (none : Option ℤ) else some w) = some v := h
    split_ifs at h with h0
    intro hv
    exact h0 ((Option.some.inj h).trans hv)

lemma noneIfZero_of_ne {v : ℤ} (h : v ≠ 0) : noneIfZero (some v) = some v := by
  show (if v = 0 then (none : Option ℤ) else some v) = some v
  rw [if_neg h]

lemma truthy_some_eq (v : ℤ) : truthy (some v) = (v != 0) := rfl

set_option maxHeartbeats 1600000 in
/-- Inverting a successful construction: the stored fields are the coerced
arguments and the range checks have passed. -/
lemma init_ok_inv (lo fo : Option PyDate) (recurs interval : ℕ)
    (day ordinal weekday : Option ℤ) (r : RecurringEvent)
    (h : RecurringEvent.init lo recurs interval day ordinal weekday fo = InitResult.ok r) :
    r.recurs = recurs ∧ r.interval = interval ∧
    r.day = noneIfZero day ∧ r.ordinal = noneIfZero ordinal ∧
    r.weekday = noneIfZero weekday ∧
    (∀ v, r.day = some v → 1 ≤ v ∧ v ≤ 31) ∧
    (∀ v, r.ordinal = some v → 1 ≤ v ∧ v ≤ 5) := by
  unfold RecurringEvent.init at h
  have main : ∀ lod : PyDate,
      (if dayRangeBad (noneIfZero day) then InitResult.error
       else if ordinalRangeBad (noneIfZero ordinal) then InitResult.error
       else if dayOrdinalBoth (noneIfZero day) (noneIfZero ordinal) then InitResult.error
       else if dayWeekdayBoth (noneIfZero day) (noneIfZero weekday) then InitResult.error
       else if workdayNotMonthly (noneIfZero weekday) recurs then InitResult.error
       else if workdayNoOrdinal (noneIfZero weekday) (noneIfZero ordinal) then InitResult.error
       else if dayNotMonthly (noneIfZero day) recurs then InitResult.error
       else if ordinalBadRecurs (noneIfZero ordinal) recurs then InitResult.error
       else if weekdayBadRecurs (noneIfZero weekday) recurs then InitResult.error
       else InitResult.ok ⟨lod, recurs, interval, noneIfZero day, noneIfZero ordinal,
         noneIfZero weekday, none⟩) = InitResult.ok r →
      r.recurs = recurs ∧ r.interval = interval ∧
      r.day = noneIfZero day ∧ r.ordinal = noneIfZero ordinal ∧
      r.weekday = noneIfZero weekday ∧
      (∀ v, r.day = some v → 1 ≤ v ∧ v ≤ 31) ∧
      (∀ v, r.ordinal = some v → 1 ≤ v ∧ v ≤ 5) := by
    intro lod hh
    split_ifs at hh with g1 g2 g3 g4 g5 g6 g7 g8 g9 <;>
      try exact InitResult.noConfusion hh
    obtain rfl := InitResult.ok.inj hh
    refine ⟨rfl, rfl, rfl, rfl, rfl, ?_, ?_⟩
    · intro v hv
      have hvne := noneIfZero_ne_zero hv
      dsimp only at hv
      unfold dayRangeBad at g1
      rw [hv, truthy_some_eq, getVal_some] at g1
      simp only [bne_iff_ne, ne_eq] at g1
      omega
    · intro v hv
      have hvne := noneIfZero_ne_zero hv
      dsimp only at hv
      unfold ordinalRangeBad at g2
      rw [hv, truthy_some_eq, getVal_some] at g2
      simp only [bne_iff_ne, ne_eq] at g2
      omega
  rcases lo with _ | lod
  · rcases fo with _ | fod
    · exact InitResult.noConfusion h
    · exact main fod h
  · exact main lod h

set_option maxHeartbeats 1600000 in
/-- Construction raises whenever any `_check_consistency` condition fires. -/
lemma init_error_of_guard (lo fo : Option PyDate) (recurs interval : ℕ)
    (day ordinal weekday : Option ℤ)
    (h : dayRangeBad (noneIfZero day) ∨
         ordinalRangeBad (noneIfZero ordinal) ∨
         dayOrdinalBoth (noneIfZero day) (noneIfZero ordinal) ∨
         dayWeekdayBoth (noneIfZero day) (noneIfZero weekday) ∨
         workdayNotMonthly (noneIfZero weekday) recurs ∨
         workdayNoOrdinal (noneIfZero weekday) (noneIfZero ordinal) ∨
         dayNotMonthly (noneIfZero day) recurs ∨
         ordinalBadRecurs (noneIfZero ordinal) recurs ∨
         weekdayBadRecurs (noneIfZero weekday) recurs) :
    RecurringEvent.init lo recurs interval day ordinal weekday fo = InitResult.error := by
  unfold RecurringEvent.init
  have main : ∀ lod : PyDate,
      (if dayRangeBad (noneIfZero day) then InitResult.error
       else if ordinalRangeBad (noneIfZero ordinal) then InitResult.error
       else if dayOrdinalBoth (noneIfZero day) (noneIfZero ordinal) then InitResult.error
       else if dayWeekdayBoth (noneIfZero day) (noneIfZero weekday) then InitResult.error
       else if workdayNotMonthly (noneIfZero weekday) recurs then InitResult.error
       else if workdayNoOrdinal (noneIfZero weekday) (noneIfZero ordinal) then InitResult.error
       else if dayNotMonthly (noneIfZero day) recurs then InitResult.error
       else if ordinalBadRecurs (noneIfZero ordinal) recurs then InitResult.error
       else if weekdayBadRecurs (noneIfZero weekday) recurs then InitResult.error
       else InitResult.ok ⟨lod, recurs, interval, noneIfZero day, noneIfZero ordinal,
         noneIfZero weekday, none⟩) = InitResult.error := by
    intro lod
    split_ifs with g1 g2 g3 g4 g5 g6 g7 g8 g9 <;> try rfl
    exfalso
    tauto
  rcases lo with _ | lod
  · rcases fo with _ | fod
    · rfl
    · exact main fod
  · exact main lod

/-- Loop step when the evaluator falls through to Python `None`: the horizon
comparison raises `TypeError`. -/
lemma getEventsLoop_step_none (hor : PyDate) (fuel : ℕ) (r : RecurringEvent)
    (acc : List PyDate)
    (hnext : r.get_next_date r.last_occurence = NextResult.noneRet) :
    getEventsLoop hor (fuel + 1) r acc = EnumResult.error := by
  show (match r.get_next_date r.last_occurence with
    | NextResult.date e =>
      if toordinal hor < toordinal e then EnumResult.ok acc r
      else getEventsLoop hor fuel { r with last_occurence := e } (acc ++ [e])
    | NextResult.noneRet => EnumResult.error
    | NextResult.error => EnumResult.error) = _
  rw [hnext]

/-!  Claim theorems.  -/

/-- C3 (code bug): `set_interval_end` with no argument is specified to set the
horizon to the clock's current date, but the module imports only `timedelta`
and `date` from `datetime`, so `datetime.now()` raises `NameError`; the
no-argument branch (and therefore `get_events`/`number_of_periods` with the
horizon omitted) errors instead of resolving "today". -/
theorem set_interval_end_no_argument_raises (r : RecurringEvent) (fuel : ℕ) :
    r.set_interval_end none = none ∧
      r.get_events none fuel = EnumResult.error :=
  ⟨rfl, rfl⟩

/-- C4 (amended): `get_next_workday_by_interval` adds `interval` days; a
landing on Monday–Friday is returned as is; a landing on Saturday is moved to
the immediately following Monday; but a landing on Sunday is moved two days
to Tuesday (weekday 1), not to Monday. -/
theorem next_workday_by_interval_weekend (d : PyDate) (n : ℕ) (hd : isValidDate d)
    (hn : 1 ≤ n) :
    ((addDays d n).weekday < 5 → get_next_workday_by_interval d n = addDays d n) ∧
    ((addDays d n).weekday = 5 →
      get_next_workday_by_interval d n = addDays (addDays d n) 2 ∧
        (get_next_workday_by_interval d n).weekday = 0) ∧
    ((addDays d n).weekday = 6 →
      get_next_workday_by_interval d n = addDays (addDays d n) 2 ∧
        (get_next_workday_by_interval d n).weekday = 1) := by
  have hv1 := (addDays_spec d n hd).1
  have hw2 := weekday_addDays (addDays d n) 2 hv1
  refine ⟨?_, ?_, ?_⟩
  · intro h
    unfold get_next_workday_by_interval
    dsimp only
    rw [if_neg (by omega)]
  · intro h
    unfold get_next_workday_by_interval
    dsimp only
    rw [if_pos (by omega)]
    exact ⟨rfl, by rw [hw2, h]⟩
  · intro h
    unfold get_next_workday_by_interval
    dsimp only
    rw [if_pos (by omega)]
    exact ⟨rfl, by rw [hw2, h]⟩

/-- C4 counterexample: starting Saturday 2023-06-03 with interval 1 lands on
Sunday 2023-06-04; the result is Tuesday 2023-06-06, not the immediately
following Monday 2023-06-05. -/
theorem next_workday_by_interval_sunday_cex :
    (addDays ⟨2023, 6, 3⟩ 1).weekday = 6 ∧
    get_next_workday_by_interval ⟨2023, 6, 3⟩ 1 = ⟨2023, 6, 6⟩ ∧
    (⟨2023, 6, 6⟩ : PyDate).weekday = 1 ∧
    (⟨2023, 6, 5⟩ : PyDate).weekday = 0 ∧
    ¬ get_next_workday_by_interval ⟨2023, 6, 3⟩ 1 = ⟨2023, 6, 5⟩ := by decide

/-- C4 witness: the spec's own example, Friday 2023-06-02 + 1 day lands on
Saturday and is moved to Monday 2023-06-05. -/
theorem next_workday_by_interval_weekend_witness :
    get_next_workday_by_interval ⟨2023, 6, 2⟩ 1 = addDays (addDays ⟨2023, 6, 2⟩ 1) 2 ∧
      (get_next_workday_by_interval ⟨2023, 6, 2⟩ 1).weekday = 0 :=
  (next_workday_by_interval_weekend ⟨2023, 6, 2⟩ 1 (by decide) (by decide)).2.1 (by decide)

/-- C5 (amended): the month/year rollover formula yields a valid target month
in 1–12 exactly `i` months ahead for every starting month `m` in 1–12 and
every interval `i` in the code's documented range 1–12; for `i ≥ 13` it can
produce an invalid month (see the counterexample). -/
theorem month_rollover_formula (y m i : ℕ) (hm1 : 1 ≤ m) (hm2 : m ≤ 12) (hi1 : 1 ≤ i)
    (hi12 : i ≤ 12) :
    1 ≤ (monthAdv m i).1 ∧ (monthAdv m i).1 ≤ 12 ∧
      (y + (monthAdv m i).2) * 12 + (monthAdv m i).1 = y * 12 + (m + i) := by
  unfold monthAdv
  dsimp only
  omega

/-- C5 counterexample: at month 12 with interval 13 the formula produces
"month 13", which is not a calendar month (Python `replace` raises on it). -/
theorem month_rollover_formula_cex :
    (monthAdv 12 13).1 = 13 ∧ ¬ (monthAdv 12 13).1 ≤ 12 := by decide

/-- C5 witness: a year-spanning in-range instance (December, interval 12). -/
theorem month_rollover_formula_witness :
    1 ≤ (monthAdv 12 12).1 ∧ (monthAdv 12 12).1 ≤ 12 ∧
      (2023 + (monthAdv 12 12).2) * 12 + (monthAdv 12 12).1 = 2023 * 12 + (12 + 12) :=
  month_rollover_formula 2023 12 12 (by decide) (by decide) (by decide) (by decide)

/-- C6 (amended): construction raises whenever the (fallback-resolved) last
occurrence is not a date, whenever a nonzero `day` lies outside 1–31 or a
nonzero `ordinal` outside 1–5, and whenever a §3 mutual-exclusion or
co-requirement invariant is violated by the truthy fields — but `day = 0` and
`ordinal = 0` are Python-falsy and are silently coerced to "unset" rather
than rejected. -/
theorem init_validation (lo fo : Option PyDate) (recurs interval : ℕ)
    (day ordinal weekday : Option ℤ) :
    (∀ v, day = some v → v ≠ 0 → (v < 1 ∨ 31 < v) →
      RecurringEvent.init lo recurs interval day ordinal weekday fo = InitResult.error) ∧
    (∀ v, ordinal = some v → v ≠ 0 → (v < 1 ∨ 5 < v) →
      RecurringEvent.init lo recurs interval day ordinal weekday fo = InitResult.error) ∧
    (lo = none → fo = none →
      RecurringEvent.init lo recurs interval day ordinal weekday fo = InitResult.error) ∧
    (RecurringEvent.init lo recurs interval (some 0) ordinal weekday fo =
      RecurringEvent.init lo recurs interval none ordinal weekday fo) ∧
    (RecurringEvent.init lo recurs interval day (some 0) weekday fo =
      RecurringEvent.init lo recurs interval day none weekday fo) ∧
    (∀ v u, day = some v → v ≠ 0 → ordinal = some u → u ≠ 0 →
      RecurringEvent.init lo recurs interval day ordinal weekday fo = InitResult.error) ∧
    (∀ v u, day = some v → v ≠ 0 → weekday = some u → u ≠ 0 →
      RecurringEvent.init lo recurs interval day ordinal weekday fo = InitResult.error) ∧
    (weekday = some 8 → recurs ≠ 4 →
      RecurringEvent.init lo recurs interval day ordinal weekday fo = InitResult.error) ∧
    (weekday = some 8 → noneIfZero ordinal = none →
      RecurringEvent.init lo recurs interval day ordinal weekday fo = InitResult.error) ∧
    (∀ v, day = some v → v ≠ 0 → recurs ≠ 4 →
      RecurringEvent.init lo recurs interval day ordinal weekday fo = InitResult.error) ∧
    (∀ v, ordinal = some v → v ≠ 0 → ¬(recurs = 2 ∨ recurs = 4) →
      RecurringEvent.init lo recurs interval day ordinal weekday fo = InitResult.error) ∧
    (∀ v, weekday = some v → v ≠ 0 → ¬(recurs = 3 ∨ recurs = 4) →
      RecurringEvent.init lo recurs interval day ordinal weekday fo = InitResult.error) := by
  have truthyOf : ∀ (v : ℤ), v ≠ 0 → truthy (noneIfZero (some v)) = true := by
    intro v hv
    rw [noneIfZero_of_ne hv, truthy_some_eq]
    simp only [bne_iff_ne, ne_eq]
    exact hv
  refine ⟨?_, ?_, ?_, rfl, rfl, ?_, ?_, ?_, ?_, ?_, ?_, ?_⟩
  · intro v hv hvne hr
    subst hv
    refine init_error_of_guard lo fo recurs interval _ ordinal weekday
      (Or.inl ⟨truthyOf v hvne, ?_⟩)
    rw [noneIfZero_of_ne hvne, getVal_some]
    exact hr
  · intro v hv hvne hr
    subst hv
    refine init_error_of_guard lo fo recurs interval day _ weekday
      (Or.inr (Or.inl ⟨truthyOf v hvne, ?_⟩))
    rw [noneIfZero_of_ne hvne, getVal_some]
    exact hr
  · intro h1 h2
    subst h1
    subst h2
    rfl
  · intro v u hv hvne hu hune
    subst hv
    subst hu
    exact init_error_of_guard lo fo recurs interval _ _ weekday
      (Or.inr (Or.inr (Or.inl ⟨truthyOf v hvne, truthyOf u hune⟩)))
  · intro v u hv hvne hu hune
    subst hv
    subst hu
    exact init_error_of_guard lo fo recurs interval _ ordinal _
      (Or.inr (Or.inr (Or.inr (Or.inl ⟨truthyOf v hvne, truthyOf u hune⟩))))
  · intro hw hr
    subst hw
    exact init_error_of_guard lo fo recurs interval day ordinal _
      (Or.inr (Or.inr (Or.inr (Or.inr (Or.inl
        ⟨noneIfZero_of_ne (by norm_num), hr⟩)))))
  · intro hw ho
    subst hw
    refine init_error_of_guard lo fo recurs interval day ordinal _
      (Or.inr (Or.inr (Or.inr (Or.inr (Or.inr (Or.inl
        ⟨noneIfZero_of_ne (by norm_num), ?_⟩))))))
    rw [ho]
    simp [truthy]
  · intro v hv hvne hr
    subst hv
    exact init_error_of_guard lo fo recurs interval _ ordinal weekday
      (Or.inr (Or.inr (Or.inr (Or.inr (Or.inr (Or.inr (Or.inl
        ⟨hr, truthyOf v hvne⟩)))))))
  · intro v hv hvne hr
    subst hv
    exact init_error_of_guard lo fo recurs interval day _ weekday
      (Or.inr (Or.inr (Or.inr (Or.inr (Or.inr (Or.inr (Or.inr (Or.inl
        ⟨hr, truthyOf v hvne⟩))))))))
  · intro v hv hvne hr
    subst hv
    exact init_error_of_guard lo fo recurs interval day ordinal _
      (Or.inr (Or.inr (Or.inr (Or.inr (Or.inr (Or.inr (Or.inr (Or.inr
        ⟨hr, truthyOf v hvne⟩))))))))

/-- C6 counterexample: `day = 0` is outside 1–31 yet construction succeeds
(Python falsiness coerces it to `None`), contradicting "every integer day
outside 1–31 (including 0) is rejected". -/
theorem init_accepts_zero_day_cex :
    RecurringEvent.init (some ⟨2023, 1, 15⟩) 1 1 (some 0) none none none =
        InitResult.ok ⟨⟨2023, 1, 15⟩, 1, 1, none, none, none, none⟩ ∧
      ¬ RecurringEvent.init (some ⟨2023, 1, 15⟩) 1 1 (some 0) none none none =
        InitResult.error := by decide

/-- C6 witness: a nonzero out-of-range day (42) is rejected. -/
theorem init_validation_witness :
    RecurringEvent.init (some ⟨2023, 1, 15⟩) 4 1 (some 42) none none none =
      InitResult.error :=
  (init_validation (some ⟨2023, 1, 15⟩) none 4 1 (some 42) none none).1 42 rfl
    (by decide) (by decide)

/-- C1: for every rule accepted by construction whose optional fields are
within the data model's ranges (weekday 1–8 when set; day and ordinal ranges
are enforced by construction itself) and whose interval is positive, every
branch of `get_next_date` that produces a date produces one strictly after
the reference date — in particular the weekly branch, whose weekday snap can
step up to 6 days back after the interval-week advance. -/
theorem next_date_strictly_increases
    (lo fo : Option PyDate) (recurs interval : ℕ) (day ordinal weekday : Option ℤ)
    (r : RecurringEvent)
    (hmk : RecurringEvent.init lo recurs interval day ordinal weekday fo = InitResult.ok r)
    (hwd : ∀ v, r.weekday = some v → 1 ≤ v ∧ v ≤ 8)
    (hint : 1 ≤ r.interval)
    (d e : PyDate) (hd : isValidDate d)
    (he : r.get_next_date d = NextResult.date e) :
    toordinal d < toordinal e := by
  obtain ⟨-, -, -, -, -, hday, hord⟩ :=
    init_ok_inv lo fo recurs interval day ordinal weekday r hmk
  exact (get_next_date_mono r hday hord hwd hint d e hd he).2

set_option maxRecDepth 4000 in
/-- C1 witness: the spec's scenario 1 — weekly, interval 4, Saturday,
from 2023-01-07 the next date 2023-02-04 is strictly later. -/
theorem next_date_strictly_increases_witness :
    toordinal ⟨2023, 1, 7⟩ < toordinal ⟨2023, 2, 4⟩ :=
  next_date_strictly_increases (some ⟨2023, 1, 7⟩) none 3 4 none none (some 6)
    ⟨⟨2023, 1, 7⟩, 3, 4, none, none, some 6, none⟩ (by decide)
    (fun v hv => by
      obtain rfl : (6 : ℤ) = v := Option.some.inj hv
      exact ⟨by norm_num, by norm_num⟩)
    (by decide) ⟨2023, 1, 7⟩ ⟨2023, 2, 4⟩ (by decide) (by decide)

/-- C7: for a monthly day-of-month rule (day 1–31, interval 1–12) and any
valid reference date, `_get_day_period` returns the requested day in the
target month when it exists, and otherwise — not an error — the last
calendar day of the target month. -/
theorem day_period_month_overflow (r : RecurringEvent) (dv : ℤ)
    (hday : r.day = some dv) (h1 : 1 ≤ dv) (h31 : dv ≤ 31)
    (hi1 : 1 ≤ r.interval) (hi12 : r.interval ≤ 12)
    (d : PyDate) (hd : isValidDate d) :
    ((daysInMonth (d.year + (monthAdv d.month r.interval).2)
        (monthAdv d.month r.interval).1 : ℤ) < dv →
      r.get_day_period d = some ⟨d.year + (monthAdv d.month r.interval).2,
        (monthAdv d.month r.interval).1,
        daysInMonth (d.year + (monthAdv d.month r.interval).2)
          (monthAdv d.month r.interval).1⟩) ∧
    (dv ≤ (daysInMonth (d.year + (monthAdv d.month r.interval).2)
        (monthAdv d.month r.interval).1 : ℤ) →
      r.get_day_period d = some ⟨d.year + (monthAdv d.month r.interval).2,
        (monthAdv d.month r.interval).1, dv.toNat⟩) := by
  have hid := monthAdv_id d.month r.interval
  have hdm1 : 1 ≤ d.month := hd.2.1
  have hdm12 : d.month ≤ 12 := hd.2.2.1
  have hdy : 1 ≤ d.year := hd.1
  have htm1 : 1 ≤ (monthAdv d.month r.interval).1 := by omega
  have htm12 : (monthAdv d.month r.interval).1 ≤ 12 := by omega
  constructor
  · intro hlt
    unfold RecurringEvent.get_day_period
    rw [hday]
    dsimp only
    rw [mkDate_isNone _ _ _ (by intro hc; omega)]
    dsimp only
    have h12 : (monthAdv d.month r.interval).1 ≤ 11 := by
      by_contra hc
      have htm : (monthAdv d.month r.interval).1 = 12 := by omega
      have h31' : daysInMonth (d.year + (monthAdv d.month r.interval).2) 12 = 31 := rfl
      rw [htm, h31'] at hlt
      omega
    have hb := daysInMonth_bounds (d.year + (monthAdv d.month r.interval).2)
      ((monthAdv d.month r.interval).1 + 1) (by omega) (by omega)
    rw [mkDate_isSome _ _ _ (by omega) (by omega) (by omega) (by omega)
      (by exact_mod_cast by omega)]
    dsimp only
    simp only [Int.toNat_one]
    rw [prevDay_first_of_month _ _ (by omega)]
    rfl
  · intro hle
    unfold RecurringEvent.get_day_period
    rw [hday]
    dsimp only
    rw [mkDate_isSome _ _ _ (by omega) htm1 htm12 h1 hle]

/-- C7 witness: the spec's scenario 4 — day 31, interval 1, from 2023-01-31
the result is 2023-02-28 (February has no 31st). -/
theorem day_period_month_overflow_witness :
    RecurringEvent.get_day_period ⟨⟨2023, 1, 31⟩, 4, 1, some 31, none, none, none⟩
      ⟨2023, 1, 31⟩ = some ⟨2023, 2, 28⟩ :=
  (day_period_month_overflow ⟨⟨2023, 1, 31⟩, 4, 1, some 31, none, none, none⟩ 31 rfl
    (by decide) (by decide) (by decide) (by decide) ⟨2023, 1, 31⟩ (by decide)).1 (by decide)

/-- C8: `get_nth_weekday_of_month` with ordinal 5 returns the last occurrence
of the requested weekday in the input's month — for every month, including
the December→January rollover — and equals the first occurrence of that
weekday in the following month minus 7 days. -/
theorem nth_weekday_last_of_month (d : PyDate) (w : ℤ) (hd : isValidDate d)
    (hw1 : 1 ≤ w) (hw7 : w ≤ 7) :
    (∃ rd, get_nth_weekday_of_month d 5 w = some rd ∧
      rd.year = d.year ∧ rd.month = d.month ∧ isValidDate rd ∧
      (rd.weekday : ℤ) = w - 1 ∧
      (∀ j, 1 ≤ j → j ≤ daysInMonth d.year d.month →
        ((⟨d.year, d.month, j⟩ : PyDate).weekday : ℤ) = w - 1 → j ≤ rd.day)) ∧
    get_nth_weekday_of_month d 5 w =
      (get_nth_weekday_of_month (nextMonthDate d) 1 w).map (fun x => subDays x 7) := by
  constructor
  · obtain ⟨y, m, dd⟩ := d
    obtain ⟨rd, h1, h2, h3, h4, -, -, h5, h6⟩ :=
      last_weekday_of_month_spec y m dd w hd.1 hd.2.1 hd.2.2.1 hw1 hw7
    exact ⟨rd, h1, h2, h3, h4, h5, h6⟩
  · unfold get_nth_weekday_of_month
    rw [if_neg (by omega : ¬(7 : ℤ) < w)]
    rw [if_neg (by norm_num : ¬(5 : ℤ) < 5), if_pos rfl,
      if_neg (by norm_num : ¬(5 : ℤ) < 1), if_neg (by norm_num : ¬(1 : ℤ) = 5),
      if_neg (by omega : ¬(7 : ℤ) < w)]
    rfl

/-- C8 witness: the last Sunday of December 2022 (rollover month) is
2022-12-25; instantiated from the general theorem. -/
theorem nth_weekday_last_of_month_witness :
    (∃ rd, get_nth_weekday_of_month ⟨2022, 12, 15⟩ 5 7 = some rd ∧
      rd.year = 2022 ∧ rd.month = 12 ∧ isValidDate rd ∧
      (rd.weekday : ℤ) = 7 - 1 ∧
      (∀ j, 1 ≤ j → j ≤ daysInMonth 2022 12 →
        ((⟨2022, 12, j⟩ : PyDate).weekday : ℤ) = 7 - 1 → j ≤ rd.day)) ∧
    get_nth_weekday_of_month ⟨2022, 12, 15⟩ 5 7 =
      (get_nth_weekday_of_month (nextMonthDate ⟨2022, 12, 15⟩) 1 7).map
        (fun x => subDays x 7) :=
  nth_weekday_last_of_month ⟨2022, 12, 15⟩ 7 (by decide) (by norm_num) (by norm_num)

/-- C2: when every evaluator step yields a (valid, strictly later) date and
the fuel covers the horizon window, `get_events` returns exactly the maximal
chain of successive next-occurrence dates starting from the cursor that stay
within the horizon: each returned date is at most the horizon, the dates come
in generation order (the k-th element is the (k+1)-st iterate), and the first
unconsumed next occurrence exceeds the horizon. -/
theorem get_events_enumeration_bound (r : RecurringEvent) (hor : PyDate) (fuel : ℕ)
    (f : PyDate → PyDate)
    (hf : ∀ d, isValidDate d → r.get_next_date d = NextResult.date (f d) ∧
      isValidDate (f d) ∧ toordinal d < toordinal (f d))
    (hv : isValidDate r.last_occurence) (h0 : 0 < fuel)
    (hfuel : toordinal hor + 1 < toordinal r.last_occurence + fuel) :
    ∃ n r2,
      r.get_events (some hor) fuel =
        EnumResult.ok ((List.range n).map fun k => f^[k + 1] r.last_occurence) r2 ∧
      (∀ k, k < n → toordinal (f^[k + 1] r.last_occurence) ≤ toordinal hor) ∧
      toordinal hor < toordinal (f^[n + 1] r.last_occurence) := by
  rw [get_events_some]
  have hf2 : ∀ d, isValidDate d →
      RecurringEvent.get_next_date { r with interval_end := some hor } d =
        NextResult.date (f d) ∧ isValidDate (f d) ∧ toordinal d < toordinal (f d) := by
    intro d hd
    rw [show ({ r with interval_end := some hor } : RecurringEvent) =
      ⟨r.last_occurence, r.recurs, r.interval, r.day, r.ordinal, r.weekday, some hor⟩
      from rfl, get_next_date_update]
    exact hf d hd
  obtain ⟨n, e1, e2, e3, -⟩ := getEventsLoop_spec hor f fuel
    { r with interval_end := some hor } [] hf2 hv h0 hfuel
  exact ⟨n, _, by simpa using e1, e2, e3⟩

/-- C2 witness: the spec's scenario 5 — daily rule from 2023-06-30,
horizon 2023-07-03. -/
theorem get_events_enumeration_bound_witness :
    ∃ n r2,
      RecurringEvent.get_events ⟨⟨2023, 6, 30⟩, 1, 1, none, none, none, none⟩
          (some ⟨2023, 7, 3⟩) 5 =
        EnumResult.ok ((List.range n).map fun k =>
          (fun x => addDays x 1)^[k + 1] (⟨2023, 6, 30⟩ : PyDate)) r2 ∧
      (∀ k, k < n →
        toordinal ((fun x => addDays x 1)^[k + 1] (⟨2023, 6, 30⟩ : PyDate)) ≤
          toordinal ⟨2023, 7, 3⟩) ∧
      toordinal ⟨2023, 7, 3⟩ <
        toordinal ((fun x => addDays x 1)^[n + 1] (⟨2023, 6, 30⟩ : PyDate)) :=
  get_events_enumeration_bound ⟨⟨2023, 6, 30⟩, 1, 1, none, none, none, none⟩
    ⟨2023, 7, 3⟩ 5 (fun x => addDays x 1)
    (fun d hd => ⟨rfl, (addDays_spec d 1 hd).1, by
      have := (addDays_spec d 1 hd).2
      show toordinal d < toordinal (addDays d 1)
      omega⟩)
    (by decide) (by decide) (by decide)

/-- C9: `get_events` mutates only the cursor and horizon fields — the rule
shape (`recurs`, `interval`, `day`, `ordinal`, `weekday`) is unchanged, the
final cursor is the last returned date (unchanged when the list is empty),
and a second call with the same horizon resumes from the advanced cursor and
returns the empty list. -/
theorem get_events_frame (r : RecurringEvent) (hor : PyDate) (fuel : ℕ)
    (f : PyDate → PyDate)
    (hf : ∀ d, isValidDate d → r.get_next_date d = NextResult.date (f d) ∧
      isValidDate (f d) ∧ toordinal d < toordinal (f d))
    (hv : isValidDate r.last_occurence) (h0 : 0 < fuel)
    (hfuel : toordinal hor + 1 < toordinal r.last_occurence + fuel) :
    ∃ L r2,
      r.get_events (some hor) fuel = EnumResult.ok L r2 ∧
      r2.recurs = r.recurs ∧ r2.interval = r.interval ∧ r2.day = r.day ∧
      r2.ordinal = r.ordinal ∧ r2.weekday = r.weekday ∧
      r2.interval_end = some hor ∧
      (L = [] → r2.last_occurence = r.last_occurence) ∧
      (L ≠ [] → L.getLast? = some r2.last_occurence) ∧
      r2.get_events (some hor) fuel = EnumResult.ok [] r2 := by
  rw [get_events_some]
  have hf2 : ∀ d, isValidDate d →
      RecurringEvent.get_next_date { r with interval_end := some hor } d =
        NextResult.date (f d) ∧ isValidDate (f d) ∧ toordinal d < toordinal (f d) := by
    intro d hd
    rw [show ({ r with interval_end := some hor } : RecurringEvent) =
      ⟨r.last_occurence, r.recurs, r.interval, r.day, r.ordinal, r.weekday, some hor⟩
      from rfl, get_next_date_update]
    exact hf d hd
  obtain ⟨n, e1, e2, e3, e4⟩ := getEventsLoop_spec hor f fuel
    { r with interval_end := some hor } [] hf2 hv h0 hfuel
  refine ⟨(List.range n).map (fun k => f^[k + 1] r.last_occurence),
    ⟨f^[n] r.last_occurence, r.recurs, r.interval, r.day, r.ordinal, r.weekday, some hor⟩,
    by simpa using e1, rfl, rfl, rfl, rfl, rfl, rfl, ?_, ?_, ?_⟩
  · intro hL
    have hn : n = 0 := by
      have := congrArg List.length hL
      simpa using this
    subst hn
    rfl
  · intro hL
    have hn : n ≠ 0 := by
      intro hc
      subst hc
      simp at hL
    obtain ⟨m, rfl⟩ : ∃ m, n = m + 1 := ⟨n - 1, by omega⟩
    rw [List.range_succ, List.map_append]
    simp only [List.map_cons, List.map_nil]
    rw [List.getLast?_concat]
  · rw [get_events_some]
    obtain ⟨fu, rfl⟩ : ∃ fu, fuel = fu + 1 := ⟨fuel - 1, by omega⟩
    have hnext2 : RecurringEvent.get_next_date
        ⟨f^[n] r.last_occurence, r.recurs, r.interval, r.day, r.ordinal, r.weekday,
          some hor⟩ (f^[n] r.last_occurence) =
        NextResult.date (f (f^[n] r.last_occurence)) := by
      rw [get_next_date_update]
      exact (hf _ e4).1
    rw [getEventsLoop_step hor fu _ [] _ hnext2]
    rw [if_pos (by rw [← Function.iterate_succ_apply' f n]; exact e3)]

/-- C9 witness: a daily rule with interval 2. -/
theorem get_events_frame_witness :
    ∃ L r2,
      RecurringEvent.get_events ⟨⟨2024, 1, 1⟩, 1, 2, none, none, none, none⟩
          (some ⟨2024, 1, 10⟩) 12 = EnumResult.ok L r2 ∧
      r2.recurs = 1 ∧ r2.interval = 2 ∧ r2.day = none ∧
      r2.ordinal = none ∧ r2.weekday = none ∧
      r2.interval_end = some ⟨2024, 1, 10⟩ ∧
      (L = [] → r2.last_occurence = ⟨2024, 1, 1⟩) ∧
      (L ≠ [] → L.getLast? = some r2.last_occurence) ∧
      r2.get_events (some ⟨2024, 1, 10⟩) 12 = EnumResult.ok [] r2 :=
  get_events_frame ⟨⟨2024, 1, 1⟩, 1, 2, none, none, none, none⟩ ⟨2024, 1, 10⟩ 12
    (fun x => addDays x 2)
    (fun d hd => ⟨rfl, (addDays_spec d 2 hd).1, by
      have := (addDays_spec d 2 hd).2
      show toordinal d < toordinal (addDays d 2)
      omega⟩)
    (by decide) (by decide) (by decide)

/-- C10: for a validly constructed rule with weekday and day both unset and
recurrence kind weekly (3) or monthly (4) — including the constructible
monthly shape with only an ordinal — `get_next_date` falls through every
dispatch branch and returns Python `None`, so `get_events` raises a
`TypeError` at the horizon comparison instead of producing any occurrence. -/
theorem unhandled_rule_shape_returns_none
    (lo fo : Option PyDate) (recurs interval : ℕ) (day ordinal weekday : Option ℤ)
    (r : RecurringEvent)
    (hmk : RecurringEvent.init lo recurs interval day ordinal weekday fo = InitResult.ok r)
    (hw : r.weekday = none) (hdy : r.day = none) (hr : r.recurs = 3 ∨ r.recurs = 4) :
    (∀ d, r.get_next_date d = NextResult.noneRet) ∧
    (∀ hor fuel, 0 < fuel → r.get_events (some hor) fuel = EnumResult.error) := by
  have hnone : ∀ d, r.get_next_date d = NextResult.noneRet := by
    intro d
    unfold RecurringEvent.get_next_date
    rw [hw, hdy, truthy_none]
    rw [if_neg (by simp), if_neg (by simp), if_neg (by omega), if_neg (by omega)]
  refine ⟨hnone, ?_⟩
  intro hor fuel h0
  obtain ⟨fu, rfl⟩ : ∃ fu, fuel = fu + 1 := ⟨fuel - 1, by omega⟩
  rw [get_events_some]
  apply getEventsLoop_step_none
  rw [show ({ r with interval_end := some hor } : RecurringEvent) =
    ⟨r.last_occurence, r.recurs, r.interval, r.day, r.ordinal, r.weekday, some hor⟩
    from rfl, get_next_date_update]
  exact hnone _

/-- C10 witness: the "every last day of month" shape (monthly, ordinal 5,
no day, no weekday) is accepted by construction but yields no date. -/
theorem unhandled_rule_shape_returns_none_witness :
    (∀ d, RecurringEvent.get_next_date
      ⟨⟨2023, 1, 15⟩, 4, 1, none, some 5, none, none⟩ d = NextResult.noneRet) ∧
    (∀ hor fuel, 0 < fuel →
      RecurringEvent.get_events ⟨⟨2023, 1, 15⟩, 4, 1, none, some 5, none, none⟩
        (some hor) fuel = EnumResult.error) :=
  unhandled_rule_shape_returns_none (some ⟨2023, 1, 15⟩) none 4 1 none (some 5) none
    ⟨⟨2023, 1, 15⟩, 4, 1, none, some 5, none, none⟩ (by decide) rfl rfl (Or.inr rfl)
